import Mathlib

/-!
# Verification of the fastapi-lambda dependency-resolution and routing engine

A shallow embedding, in Lean 4, of the core of the `fastapi_lambda` package:
value extraction and validation (`dependencies.py`), the dependency solver
(`solve_dependencies`), the dependant-graph builder (`get_dependant` /
`get_sub_dependant`), request routing (`router.py`) and the request cycle
(`Route.handle`, `LambdaRouter.route`), together with theorems about caching,
error aggregation, resource teardown and response serialization.

Python values flowing through the engine (JSON payloads, query strings,
validated results) are embedded as the inductive `Value`.  The opaque
schema-validation capability (pydantic) is a function field of each
`ModelField`.  Side-effectful callables are embedded as an environment
mapping a callable identity and an invocation index to the produced value,
and executions log a trace of invocation / observation / resource events.
-/

namespace FastapiLambda

/-- JSON-like values: the Python values the engine moves around.
`vNull` plays the role of Python `None` (and JSON `null`). -/
inductive Value where
  | vNull : Value
  | vBool : Bool → Value
  | vInt : Int → Value
  | vStr : String → Value
  | vArr : List Value → Value
  | vObj : List (String × Value) → Value
  deriving Repr, Inhabited

mutual

/-- Decidable equality for `Value` (hand-rolled: the nested inductive is not
covered by deriving). -/
def decEqValue : (a b : Value) → Decidable (a = b)
  | .vNull, .vNull => .isTrue rfl
  | .vNull, .vBool _ => .isFalse (fun h => Value.noConfusion h)
  | .vNull, .vInt _ => .isFalse (fun h => Value.noConfusion h)
  | .vNull, .vStr _ => .isFalse (fun h => Value.noConfusion h)
  | .vNull, .vArr _ => .isFalse (fun h => Value.noConfusion h)
  | .vNull, .vObj _ => .isFalse (fun h => Value.noConfusion h)
  | .vBool _, .vNull => .isFalse (fun h => Value.noConfusion h)
  | .vBool a, .vBool b =>
    match decEq a b with
    | .isTrue h => .isTrue (by rw [h])
    | .isFalse h => .isFalse (fun hh => h (Value.vBool.inj hh))
  | .vBool _, .vInt _ => .isFalse (fun h => Value.noConfusion h)
  | .vBool _, .vStr _ => .isFalse (fun h => Value.noConfusion h)
  | .vBool _, .vArr _ => .isFalse (fun h => Value.noConfusion h)
  | .vBool _, .vObj _ => .isFalse (fun h => Value.noConfusion h)
  | .vInt _, .vNull => .isFalse (fun h => Value.noConfusion h)
  | .vInt _, .vBool _ => .isFalse (fun h => Value.noConfusion h)
  | .vInt a, .vInt b =>
    match decEq a b with
    | .isTrue h => .isTrue (by rw [h])
    | .isFalse h => .isFalse (fun hh => h (Value.vInt.inj hh))
  | .vInt _, .vStr _ => .isFalse (fun h => Value.noConfusion h)
  | .vInt _, .vArr _ => .isFalse (fun h => Value.noConfusion h)
  | .vInt _, .vObj _ => .isFalse (fun h => Value.noConfusion h)
  | .vStr _, .vNull => .isFalse (fun h => Value.noConfusion h)
  | .vStr _, .vBool _ => .isFalse (fun h => Value.noConfusion h)
  | .vStr _, .vInt _ => .isFalse (fun h => Value.noConfusion h)
  | .vStr a, .vStr b =>
    match decEq a b with
    | .isTrue h => .isTrue (by rw [h])
    | .isFalse h => .isFalse (fun hh => h (Value.vStr.inj hh))
  | .vStr _, .vArr _ => .isFalse (fun h => Value.noConfusion h)
  | .vStr _, .vObj _ => .isFalse (fun h => Value.noConfusion h)
  | .vArr _, .vNull => .isFalse (fun h => Value.noConfusion h)
  | .vArr _, .vBool _ => .isFalse (fun h => Value.noConfusion h)
  | .vArr _, .vInt _ => .isFalse (fun h => Value.noConfusion h)
  | .vArr _, .vStr _ => .isFalse (fun h => Value.noConfusion h)
  | .vArr a, .vArr b =>
    match decEqValueList a b with
    | .isTrue h => .isTrue (by rw [h])
    | .isFalse h => .isFalse (fun hh => h (Value.vArr.inj hh))
  | .vArr _, .vObj _ => .isFalse (fun h => Value.noConfusion h)
  | .vObj _, .vNull => .isFalse (fun h => Value.noConfusion h)
  | .vObj _, .vBool _ => .isFalse (fun h => Value.noConfusion h)
  | .vObj _, .vInt _ => .isFalse (fun h => Value.noConfusion h)
  | .vObj _, .vStr _ => .isFalse (fun h => Value.noConfusion h)
  | .vObj _, .vArr _ => .isFalse (fun h => Value.noConfusion h)
  | .vObj a, .vObj b =>
    match decEqValuePairs a b with
    | .isTrue h => .isTrue (by rw [h])
    | .isFalse h => .isFalse (fun hh => h (Value.vObj.inj hh))

/-- Decidable equality for lists of values. -/
def decEqValueList : (a b : List Value) → Decidable (a = b)
  | [], [] => .isTrue rfl
  | [], _ :: _ => .isFalse (fun h => List.noConfusion h)
  | _ :: _, [] => .isFalse (fun h => List.noConfusion h)
  | a :: as, b :: bs =>
    match decEqValue a b with
    | .isFalse h1 => .isFalse (fun h => h1 (List.cons.inj h).1)
    | .isTrue h1 =>
      match decEqValueList as bs with
      | .isTrue h2 => .isTrue (by rw [h1, h2])
      | .isFalse h2 => .isFalse (fun h => h2 (List.cons.inj h).2)

/-- Decidable equality for string-keyed association lists of values. -/
def decEqValuePairs : (a b : List (String × Value)) → Decidable (a = b)
  | [], [] => .isTrue rfl
  | [], _ :: _ => .isFalse (fun h => List.noConfusion h)
  | _ :: _, [] => .isFalse (fun h => List.noConfusion h)
  | (ka, va) :: as, (kb, vb) :: bs =>
    match decEq ka kb with
    | .isFalse h1 =>
      .isFalse (fun h => h1 (congrArg Prod.fst (List.cons.inj h).1))
    | .isTrue h1 =>
      match decEqValue va vb with
      | .isFalse h2 =>
        .isFalse (fun h => h2 (congrArg Prod.snd (List.cons.inj h).1))
      | .isTrue h2 =>
        match decEqValuePairs as bs with
        | .isTrue h3 => .isTrue (by rw [h1, h2, h3])
        | .isFalse h3 => .isFalse (fun h => h3 (List.cons.inj h).2)

end

instance : DecidableEq Value := decEqValue

/-- Python truthiness of a value (`bool(v)`), as used by the `or` operator
in `extract_params_from_dict`. -/
def Value.isTruthy : Value → Bool
  | .vNull => false
  | .vBool b => b
  | .vInt n => n != 0
  | .vStr s => !s.isEmpty
  | .vArr xs => !xs.isEmpty
  | .vObj kvs => !kvs.isEmpty

/-- Association-list lookup, first binding wins (Python dict lookup for the
dictionaries the engine builds, which never hold duplicate keys). -/
def dictGet : List (String × Value) → String → Option Value
  | [], _ => none
  | (k, v) :: rest, key => if k = key then some v else dictGet rest key

/-- Python `d[key] = val`: replace the binding if present, else append. -/
def dictSet : List (String × Value) → String → Value → List (String × Value)
  | [], key, val => [(key, val)]
  | (k, v) :: rest, key, val =>
    if k = key then (key, val) :: rest else (k, v) :: dictSet rest key val

/-- Python `d1.update(d2)`. -/
def dictUpdate (d1 d2 : List (String × Value)) : List (String × Value) :=
  d2.foldl (fun acc kv => dictSet acc kv.1 kv.2) d1

/-- Python `d.get(key)`.  A stored JSON `null` is Python `None`, which is
indistinguishable from an absent key, so it is normalized to `none`. -/
def pyGet (d : List (String × Value)) (k : String) : Option Value :=
  match dictGet d k with
  | some .vNull => none
  | r => r

/-- Python `a or b` on optional values: `None` and falsy values fall
through to `b`.  This embeds the `received_params.get(alias) or
received_params.get(field.name)` idiom of `extract_params_from_dict`. -/
def pyOr (a b : Option Value) : Option Value :=
  match a with
  | some v => if v.isTruthy then some v else b
  | none => b

/-- One entry of a validation-error list: the error type tag and the
location tuple (`_compat.get_missing_field_error` and the error dicts
produced by the validation capability). -/
structure ErrItem where
  typ : String
  loc : List String
  deriving Repr, DecidableEq

/-- `_compat.get_missing_field_error`: a "missing" error at `loc`. -/
def missingFieldError (loc : List String) : ErrItem :=
  { typ := "missing", loc := loc }

/-- Source location of a request parameter (`params.ParamTypes` plus body). -/
inductive ParamIn where
  | path | query | header | body
  deriving Repr, DecidableEq

/-- `ParamTypes.<x>.value`, the string used in error location tuples. -/
def ParamIn.value : ParamIn → String
  | .path => "path"
  | .query => "query"
  | .header => "header"
  | .body => "body"

/-- Shallow embedding of `_compat.ModelField` as consumed by
`dependencies.py`: name, alias, source location, required flag, declared
default, and the opaque schema-validation capability.  `validate v` returns
either the coerced value or a list of errors whose locations are relative
(the caller prefixes the field location, as `ModelField.validate` does with
its `loc` argument).  `isBaseModel`/`subFields` describe the
single-pydantic-model special case of `extract_params_from_dict`
(`get_cached_model_fields`: the model's field names and aliases), and
`embed` is the explicit body-embed marker of `params.Body`. -/
structure ModelField where
  name : String
  aliasName : String
  paramIn : ParamIn
  required : Bool
  default : Value
  validate : Value → Value ⊕ List ErrItem
  isBaseModel : Bool
  subFields : List (String × String)
  embed : Bool

/-- `dependencies._validate_value_with_model_field`: absent value falls back
to the default or yields a "missing" error; a present value goes through the
validation capability, errors being prefixed with `loc`.  (The
pydantic-v1 `ErrorWrapper` branch is dead code with the v2 `_compat`
shim, whose `validate` returns a value or a list.) -/
def validate_value_with_model_field (field : ModelField) (value : Option Value)
    (loc : List String) : Value × List ErrItem :=
  match value with
  | none =>
    if field.required then (Value.vNull, [missingFieldError loc])
    else (field.default, [])
  | some v =>
    match field.validate v with
    | Sum.inl ok => (ok, [])
    | Sum.inr errs => (Value.vNull, errs.map (fun e => { e with loc := loc ++ e.loc }))

/-- The raw value `extract_params_from_dict` feeds a field:
`received_params.get(alias) or received_params.get(field.name)`. -/
def fieldLookup (field : ModelField) (received : List (String × Value)) : Option Value :=
  pyOr (pyGet received field.aliasName) (pyGet received field.name)

/-- Per-field outcome of the `extract_params_from_dict` validation loop. -/
def fieldOutcome (field : ModelField) (received : List (String × Value)) :
    Value × List ErrItem :=
  validate_value_with_model_field field (fieldLookup field received)
    [field.paramIn.value, field.aliasName]

/-- `dependencies.extract_params_from_dict`.  A single field whose type is a
pydantic model has its sub-fields extracted individually and validated as
one unit with the bare category as location; otherwise each field is looked
up by alias (falling back to the declared name) and validated at
`(category, alias)`. -/
def extract_params_from_dict (fields : List ModelField)
    (received : List (String × Value)) :
    List (String × Value) × List ErrItem :=
  match fields with
  | [] => ([], [])
  | firstField :: restFields =>
    if restFields.isEmpty ∧ firstField.isBaseModel then
      let toProcess := firstField.subFields.foldl (fun acc nm =>
        match pyOr (pyGet received nm.2) (pyGet received nm.1) with
        | some v => dictSet acc nm.1 v
        | none => acc) []
      let res := validate_value_with_model_field firstField
        (some (Value.vObj toProcess)) [firstField.paramIn.value]
      ([(firstField.name, res.1)], res.2)
    else
      (firstField :: restFields).foldl
        (fun (acc : List (String × Value) × List ErrItem) field =>
          let res := fieldOutcome field received
          if res.2.isEmpty then (dictSet acc.1 field.name res.1, acc.2)
          else (acc.1, acc.2 ++ res.2)) ([], [])

/-- `dependencies._should_embed_body_fields`: two or more distinct declared
names, or an explicit embed marker on the single field, force embedding. -/
def should_embed_body_fields (fields : List ModelField) : Bool :=
  match fields with
  | [] => false
  | firstField :: _ =>
    if 1 < ((fields.map (fun f => f.name)).dedup).length then true
    else firstField.embed

/-- Per-field outcome of the embedded-body validation loop of
`extract_body_params`: the value is looked up by alias inside the body
mapping (a non-mapping body raises `AttributeError`, recorded as a missing
error), and validated at `("body", alias)`. -/
def bodyFieldOutcome (field : ModelField) (receivedBody : Option Value) :
    Value × List ErrItem :=
  match receivedBody with
  | none => validate_value_with_model_field field none ["body", field.aliasName]
  | some (Value.vObj kvs) =>
    validate_value_with_model_field field (pyGet kvs field.aliasName) ["body", field.aliasName]
  | some _ => (Value.vNull, [missingFieldError ["body", field.aliasName]])

/-- `dependencies.extract_body_params`.  A single body field without the
embed marker receives the parsed body directly, validated at `("body",)`;
otherwise each field is looked up by its own alias inside the body mapping
and validated at `("body", alias)`.  (The Python function asserts the field
list is non-empty; `solve_dependencies` only calls it when it is.) -/
def extract_body_params (bodyFields : List ModelField)
    (receivedBody : Option Value) :
    List (String × Value) × List ErrItem :=
  match bodyFields with
  | [] => ([], [])
  | firstField :: restFields =>
    let embed := should_embed_body_fields (firstField :: restFields)
    if restFields.isEmpty ∧ ¬embed then
      let res := validate_value_with_model_field firstField receivedBody ["body"]
      ([(firstField.name, res.1)], res.2)
    else
      (firstField :: restFields).foldl
        (fun (acc : List (String × Value) × List ErrItem) field =>
          match receivedBody with
          | some (Value.vObj _) | none =>
            let res := bodyFieldOutcome field receivedBody
            if res.2.isEmpty then (dictSet acc.1 field.name res.1, acc.2)
            else (acc.1, acc.2 ++ res.2)
          | some _ =>
            (acc.1, acc.2 ++ [missingFieldError ["body", field.aliasName]]))
        ([], [])

/-! ## Route matching (`router.py`)

`compile_path` turns a path template into an anchored regex alternating
literal runs with named converter groups (`StringConvertor` `[^/]+`,
`IntConvertor` `[0-9]+`, `PathConvertor` `.*`).  A compiled pattern is
embedded directly as its part list; the matcher below implements the
anchored regex semantics (greedy converter groups with backtracking). -/

/-- A path-parameter converter (`router.CONVERTORS`). -/
inductive Conv where
  | str | int | path
  deriving Repr, DecidableEq

/-- Whether a character may appear in a converter's captured segment:
`[^/]` for `str`, `[0-9]` for `int`, any character for `path`. -/
def convMatches : Conv → Char → Bool
  | .str, c => c ≠ '/'
  | .int, c => c.isDigit
  | .path, _ => true

/-- Minimum capture length: `+` requires one character, `*` allows zero. -/
def convMinLen : Conv → Nat
  | .str => 1
  | .int => 1
  | .path => 0

/-- One part of a compiled path pattern: a literal run or a named
converter group. -/
inductive PatPart where
  | lit : List Char → PatPart
  | param : String → Conv → PatPart
  deriving Repr, DecidableEq

/-- Length of the longest run of characters a converter can consume. -/
def takeRun (conv : Conv) : List Char → Nat
  | [] => 0
  | c :: cs => if convMatches conv c then takeRun conv cs + 1 else 0

/-- Candidate capture lengths for a converter group, greedy (longest first),
as the backtracking regex engine tries them. -/
def candidateLens (conv : Conv) (run : Nat) : List Nat :=
  ((List.range (run + 1)).reverse).filter (fun k => convMinLen conv ≤ k)

/-- Anchored match of a compiled pattern against a path, returning the named
captures (`Route.matches` via `self.path_regex.match(path)`). -/
def matchParts : List PatPart → List Char → Option (List (String × String))
  | [], s => if s.isEmpty then some [] else none
  | .lit l :: ps, s =>
    if l.isPrefixOf s then matchParts ps (s.drop l.length) else none
  | .param nm conv :: ps, s =>
    (candidateLens conv (takeRun conv s)).findSome?
      (fun k => (matchParts ps (s.drop k)).map
        (fun rest => (nm, String.mk (s.take k)) :: rest))
termination_by pats _ => pats.length

/-- `Convertor.convert` applied to a captured segment: the int converter
parses the (digit-only) segment, the others keep the string. -/
def convConvert (conv : Conv) (s : String) : Value :=
  match conv with
  | .str => .vStr s
  | .int => .vInt (s.toNat?.getD 0)
  | .path => .vStr s

/-- The converters of a compiled pattern, keyed by parameter name
(`Route.path_convertors`). -/
def patConvertors (pattern : List PatPart) : List (String × Conv) :=
  pattern.filterMap (fun p =>
    match p with
    | .lit _ => none
    | .param nm conv => some (nm, conv))

/-- Lookup in an association list of converters. -/
def convFor (cs : List (String × Conv)) (nm : String) : Conv :=
  match cs.find? (fun kv => kv.1 = nm) with
  | some kv => kv.2
  | none => .str

/-! ## The dependant graph and the solver (`dependencies.py`)

A `Dependant` node is embedded as `DepNode`.  The Python code inspects the
shape of each callable per request (`is_gen_callable`,
`is_async_gen_callable`, `is_coroutine_callable`); here the shape is the
`CallKind` tag of the node's callable.  Callable identity (Python object
identity, the first component of `Dependant.cache_key`) is a `Nat`.
Invoking a callable is embedded through the environment `Env`: the value
produced by callable `c` at its `i`-th invocation within the request is
`env.impl c i`, so side-effectful callables (counters, resource factories)
can yield different values on repeated invocation.  Executions log a trace
of events: `invoke` when the underlying callable actually runs, `acquire`
when an async-generator dependency is entered on the exit stack, `observe`
when a use site receives the solved value under its parameter name, and
`teardown` when the exit stack releases a resource at request-cycle end. -/

/-- Shape of a dependency's callable, as classified by `is_gen_callable` /
`is_async_gen_callable` / `is_coroutine_callable`. -/
inductive CallKind where
  | plainAsync
  | asyncGen
  | syncGen
  | notAsync
  deriving Repr, DecidableEq

/-- `tuple(sorted(set(scopes)))`: the second component of
`Dependant.cache_key`. -/
def sortedScopes (scopes : List String) : List String :=
  scopes.toFinset.sort (fun a b => a ≤ b)

/-- A security requirement attached to a dependant whose callable is a
security scheme (`dependencies.SecurityRequirement`): the scheme's identity
and the recorded scope list. -/
structure SecReq where
  schemeCallId : Nat
  scopes : List String
  deriving Repr, DecidableEq

/-- A `Dependant` tree node: the partitioned field descriptors, the child
dependants, the callable (identity and shape), the accumulated security
scopes at construction time, and the `use_cache` flag.  The root endpoint
node's callable is never invoked by `solve_dependencies` (the router
invokes the endpoint itself). -/
structure DepNode where
  name : Option String
  callId : Nat
  kind : CallKind
  useCache : Bool
  securityScopes : List String
  securityRequirements : List SecReq
  children : List DepNode
  pathFields : List ModelField
  queryFields : List ModelField
  headerFields : List ModelField
  bodyFields : List ModelField

/-- `Dependant.cache_key`, computed in `__post_init__`:
`(self.call, tuple(sorted(set(self.security_scopes or []))))`. -/
def DepNode.cacheKey (d : DepNode) : Nat × List String :=
  (d.callId, sortedScopes d.securityScopes)

mutual

/-- A node together with all its descendants. -/
def allNodesNode (d : DepNode) : List DepNode :=
  d :: allNodesList d.children
termination_by sizeOf d
decreasing_by
  cases d
  simp only [DepNode.mk.sizeOf_spec]
  omega

/-- All nodes of a forest, each with its descendants. -/
def allNodesList : List DepNode → List DepNode
  | [] => []
  | c :: rest => allNodesNode c ++ allNodesList rest
termination_by cs => sizeOf cs
decreasing_by
  all_goals simp only [List.cons.sizeOf_spec]
  all_goals omega

end

mutual

/-- Number of sub-dependant occurrences of callable `c` strictly below `d`
(the root's own callable is not an occurrence: `solve_dependencies` never
invokes it). -/
def countOccNode (c : Nat) (d : DepNode) : Nat :=
  countOccList c d.children
termination_by sizeOf d
decreasing_by
  cases d
  simp only [DepNode.mk.sizeOf_spec]
  omega

/-- Occurrences of callable `c` in a forest, counting each root of the
forest itself. -/
def countOccList (c : Nat) : List DepNode → Nat
  | [] => 0
  | ch :: rest =>
    (if ch.callId = c then 1 else 0) + countOccNode c ch + countOccList c rest
termination_by cs => sizeOf cs
decreasing_by
  all_goals simp only [List.cons.sizeOf_spec]
  all_goals omega

end

/-- The execution environment: the value produced by callable `c` at its
`i`-th invocation within the request, and the JSON parser
(`json.loads`, `none` meaning a parse failure). -/
structure Env where
  impl : Nat → Nat → Value
  jsonParse : String → Option Value

/-- Events logged by the embedded execution. -/
inductive Event where
  | invoke : Nat → Value → Event
  | acquire : Nat → Nat → Event
  | observe : Nat → Value → Event
  | teardown : Nat → Nat → Event
  deriving Repr, DecidableEq

/-- Number of `invoke` events of callable `c` in a trace: how many times the
underlying callable has run. -/
def invokeCount (c : Nat) (tr : List Event) : Nat :=
  tr.countP (fun e =>
    match e with
    | .invoke c' _ => c' = c
    | _ => false)

/-- The acquisitions recorded in a trace, in acquisition order. -/
def acquiresOf (tr : List Event) : List (Nat × Nat) :=
  tr.filterMap (fun e =>
    match e with
    | .acquire c s => some (c, s)
    | _ => none)

/-- The teardowns recorded in a trace, in execution order. -/
def teardownsOf (tr : List Event) : List (Nat × Nat) :=
  tr.filterMap (fun e =>
    match e with
    | .teardown c s => some (c, s)
    | _ => none)

/-- Mutable per-request solver state: the dependency cache (keyed by
`Dependant.cache_key`), the `AsyncExitStack`'s acquired resources in
acquisition order (callable identity and invocation serial), and the event
trace. -/
structure SolveSt where
  cache : List ((Nat × List String) × Value)
  stack : List (Nat × Nat)
  trace : List Event
  deriving Repr, DecidableEq

/-- Cache lookup (`cache_key in dependency_cache` / indexing). -/
def cacheGet (cache : List ((Nat × List String) × Value)) (k : Nat × List String) :
    Option Value :=
  match cache.find? (fun kv => kv.1 = k) with
  | some kv => some kv.2
  | none => none

/-- The request as the solver sees it: method, path and the three raw
parameter mappings (`LambdaRequest.path_params` / `query_params` /
`headers`). -/
structure Req where
  method : String
  path : String
  pathParams : List (String × Value)
  queryParams : List (String × Value)
  headers : List (String × Value)

/-- Result of one `solve_dependencies` call (`SolvedDependency`, minus the
cache which lives in the threaded state and the always-`None` response). -/
structure Solved where
  values : List (String × Value)
  errors : List ErrItem
  deriving Repr, DecidableEq

/-- The two `RuntimeError`s of dependency resolution: a synchronous
generator dependency (`solve_generator`) and a plain synchronous callable
(`solve_dependencies`' final `else`). -/
inductive Fault where
  | mustUseAsyncGen : Nat → Fault
  | mustBeAsync : Nat → Fault
  deriving Repr, DecidableEq

/-- The extraction tail of `solve_dependencies`: the node's own path, query
and header fields from the corresponding request dictionaries, then its
body fields from the parsed body when it has any. -/
def extractOwn (req : Req) (body : Option Value) (d : DepNode)
    (values : List (String × Value)) (errors : List ErrItem) : Solved :=
  let pathRes := extract_params_from_dict d.pathFields req.pathParams
  let queryRes := extract_params_from_dict d.queryFields req.queryParams
  let headerRes := extract_params_from_dict d.headerFields req.headers
  let values1 := dictUpdate (dictUpdate (dictUpdate values pathRes.1) queryRes.1) headerRes.1
  let errors1 := errors ++ pathRes.2 ++ queryRes.2 ++ headerRes.2
  if d.bodyFields.isEmpty then
    { values := values1, errors := errors1 }
  else
    let bodyRes := extract_body_params d.bodyFields body
    { values := dictUpdate values1 bodyRes.1, errors := errors1 ++ bodyRes.2 }

/-- The cache-or-invoke step for one sub-dependant inside
`solve_dependencies`: reuse the cached result when `use_cache` allows and
the key is present; otherwise dispatch on the callable's shape — a
synchronous generator raises (`solve_generator`), an async generator is
entered on the exit stack yielding its produced value, an async function is
awaited, and anything else raises the must-be-async `RuntimeError`. -/
def invokeStep (env : Env) (c : DepNode) (st1 : SolveSt) :
    Except (Fault × SolveSt) (Value × SolveSt) :=
  match (if c.useCache then cacheGet st1.cache c.cacheKey else none) with
  | some v => .ok (v, st1)
  | none =>
    match c.kind with
    | .syncGen => .error (.mustUseAsyncGen c.callId, st1)
    | .asyncGen =>
      let serial := invokeCount c.callId st1.trace
      let v := env.impl c.callId serial
      .ok (v, { st1 with
        trace := st1.trace ++ [Event.invoke c.callId v, Event.acquire c.callId serial],
        stack := st1.stack ++ [(c.callId, serial)] })
    | .plainAsync =>
      let serial := invokeCount c.callId st1.trace
      let v := env.impl c.callId serial
      .ok (v, { st1 with trace := st1.trace ++ [Event.invoke c.callId v] })
    | .notAsync => .error (.mustBeAsync c.callId, st1)

/-- Binding and caching of a solved sub-dependant: log the observation and
store the value under the child's name when it has one, then insert the
value into the cache if its key is absent. -/
def bindStep (c : DepNode) (solved : Value) (st2 : SolveSt) : SolveSt :=
  let st3 :=
    match c.name with
    | some _ => { st2 with trace := st2.trace ++ [Event.observe c.callId solved] }
    | none => st2
  if (cacheGet st3.cache c.cacheKey).isSome then st3
  else { st3 with cache := st3.cache ++ [(c.cacheKey, solved)] }

/-- The solver-state invariant maintained by `solve_dependencies`: the exit
stack lists exactly the acquisitions of the trace in order, each acquired
serial is below the callable's invocation count, the stack has no
duplicates, and the solver itself never emits teardown events. -/
def StInv (st : SolveSt) : Prop :=
  st.stack = acquiresOf st.trace ∧
  (∀ p ∈ st.stack, p.2 < invokeCount p.1 st.trace) ∧
  st.stack.Nodup ∧
  teardownsOf st.trace = []

/-- One solver step extends the state: the trace grows by appending, the
state invariant is preserved, and existing cache entries are never
changed. -/
def Extends (st st2 : SolveSt) : Prop :=
  (∃ dt, st2.trace = st.trace ++ dt) ∧
  (StInv st → StInv st2) ∧
  (∀ k v, cacheGet st.cache k = some v → cacheGet st2.cache k = some v)

/-- The per-request caching invariant for one identity key `(c, ss)`: the
underlying callable `c` has run at most once — and only if the key is
cached — and every use-site observation of `c` saw exactly the cached
value. -/
def CacheInv (c : Nat) (ss : List String) (st : SolveSt) : Prop :=
  invokeCount c st.trace ≤ (if (cacheGet st.cache (c, ss)).isSome then 1 else 0) ∧
  (∀ v, Event.observe c v ∈ st.trace → cacheGet st.cache (c, ss) = some v)

mutual

/-- `dependencies.solve_dependencies`: recursively solve the child
dependants (threading cache, exit stack and trace), then extract this
node's own fields.  A `RuntimeError` from a shape-invalid dependency
aborts the whole resolution (`Except.error`). -/
def solveDeps (env : Env) (req : Req) (body : Option Value) (d : DepNode)
    (st : SolveSt) : Except (Fault × SolveSt) (Solved × SolveSt) :=
  match solveChildren env req body d.children st with
  | .error e => .error e
  | .ok (values, errors, st1) => .ok (extractOwn req body d values errors, st1)
termination_by sizeOf d
decreasing_by
  cases d
  simp only [DepNode.mk.sizeOf_spec]
  omega

/-- The sub-dependant loop of `solve_dependencies`: for each child in
declaration order, recursively resolve; on child errors, append them and
skip the child's invocation but continue with the remaining siblings;
otherwise reuse the cached result when `use_cache` allows, or invoke the
callable according to its shape (entering async generators on the exit
stack), bind the result under the child's name, and insert it into the
cache if its key is absent. -/
def solveChildren (env : Env) (req : Req) (body : Option Value)
    (cs : List DepNode) (st : SolveSt) :
    Except (Fault × SolveSt) (List (String × Value) × List ErrItem × SolveSt) :=
  match cs with
  | [] => .ok ([], [], st)
  | c :: rest =>
    match solveDeps env req body c st with
    | .error e => .error e
    | .ok (solvedRes, st1) =>
      if solvedRes.errors.isEmpty then
        match invokeStep env c st1 with
        | .error e => .error e
        | .ok (solved, st2) =>
          match solveChildren env req body rest (bindStep c solved st2) with
          | .error e => .error e
          | .ok (vals, errs, st5) =>
            let childVals :=
              match c.name with
              | some n => [(n, solved)]
              | none => []
            .ok (dictUpdate childVals vals, errs, st5)
      else
        match solveChildren env req body rest st1 with
        | .error e => .error e
        | .ok (vals, errs, st2) => .ok (vals, solvedRes.errors ++ errs, st2)
termination_by sizeOf cs
decreasing_by
  all_goals simp only [List.cons.sizeOf_spec]
  all_goals omega

end

/-! ## The request cycle (`Route.handle`, `LambdaRouter.route`,
`applications.py` middleware stack) -/

/-- A finalized response (`LambdaResponse`): status code and content.
`JSONResponse(content)` defaults to status 200. -/
structure Response where
  status : Nat
  content : Value
  deriving Repr, DecidableEq

/-- `JSONResponse(content)` with the default status code 200. -/
def JSONResponse (content : Value) : Response :=
  { status := 200, content := content }

/-- What an endpoint invocation produces: a finalized response object, a
plain value to be serialized, or a raised exception (`Except.error`). -/
inductive EndpointResult where
  | resp : Response → EndpointResult
  | val : Value → EndpointResult

/-- Modelled from the spec: the declared output shape (`response_model`)
and the opaque validate-and-serialize capability behind it
(`TypeAdapter(response_model).validate_python` / `dump_python`, external
pydantic code).  Per the spec, validation against the shape keeps the
declared fields and drops extra fields; a value that does not fit the
shape raises, which terminates the request as a fault. -/
structure RespShape where
  fieldNames : List String
  deriving Repr, DecidableEq

/-- Modelled from the spec: `adapter.dump_python(adapter.validate_python(r),
mode="json")` — project the returned object onto the declared field names
(extra fields dropped), failing when the value is not an object carrying
every declared field. -/
def serializeWithShape (shape : RespShape) (v : Value) : Option Value :=
  match v with
  | .vObj kvs =>
    if shape.fieldNames.all (fun n => (dictGet kvs n).isSome) then
      some (.vObj (shape.fieldNames.map (fun n => (n, (dictGet kvs n).getD .vNull))))
    else none
  | _ => none

/-- A registered route (`router.Route`): compiled path pattern, upper-cased
method list, the built dependant tree, the endpoint callable (consuming the
resolved values) and the optional declared output shape
(`response_field`). -/
structure RouteM where
  pattern : List PatPart
  methods : List String
  dependant : DepNode
  endpoint : List (String × Value) → Except Unit EndpointResult
  responseField : Option RespShape

/-- Python `str(v)` for the values a path converter produces (strings and
ints): `Route.handle` stringifies converted path parameters back into the
event's `pathParameters` mapping. -/
def pyStr : Value → String
  | .vStr s => s
  | .vInt n => toString n
  | .vBool b => if b then "True" else "False"
  | .vNull => "None"
  | .vArr _ => ""
  | .vObj _ => ""

/-- The body `Route.handle` passes to `solve_dependencies`: only POST, PUT
and PATCH requests are parsed; an empty body yields `None`
(`LambdaRequest.json`), a JSON `null` body is Python `None`, and any
parse failure is swallowed (`except Exception: pass`), leaving the body
`None`. -/
def parseBody (env : Env) (method : String) (rawBody : String) : Option Value :=
  if method = "POST" ∨ method = "PUT" ∨ method = "PATCH" then
    if rawBody.isEmpty then none
    else
      match env.jsonParse rawBody with
      | some .vNull => none
      | some v => some v
      | none => none
  else none

/-- The teardown events the `AsyncExitStack` emits when the `async with`
block in `Route.handle` exits: every acquired resource is released, in
reverse acquisition order.  Modelled from the spec (and the `contextlib`
contract, external to the repository): release happens on every exit path
— normal return, raised `RequestValidationError`, or any other
exception. -/
def teardownEvents (stack : List (Nat × Nat)) : List Event :=
  stack.reverse.map (fun p => Event.teardown p.1 p.2)

/-- The exceptional outcomes of `Route.handle`: a raised
`RequestValidationError`, a dependency-shape `RuntimeError`, an exception
from the endpoint itself, or a response-model validation error. -/
inductive HandleExc where
  | validationFailure : List ErrItem → HandleExc
  | depFault : Fault → HandleExc
  | endpointFault : HandleExc
  | responseValidationFault : HandleExc
  deriving Repr, DecidableEq

/-- `Route.handle` after the body has been computed: solve dependencies
inside the exit-stack block, raise `RequestValidationError` on collected
errors, invoke the endpoint, close the stack, then serialize the result
(pass a finalized response through unchanged, else validate-and-serialize
against the declared output shape when present, else wrap in a
`JSONResponse`). -/
def handleCore (env : Env) (route : RouteM) (req : Req) (body : Option Value) :
    Except HandleExc Response × List Event :=
  match solveDeps env req body route.dependant { cache := [], stack := [], trace := [] } with
  | .error (f, st) => (.error (.depFault f), st.trace ++ teardownEvents st.stack)
  | .ok (solved, st) =>
    let tr := st.trace ++ teardownEvents st.stack
    if solved.errors.isEmpty then
      match route.endpoint solved.values with
      | .error _ => (.error .endpointFault, tr)
      | .ok (.resp r) => (.ok r, tr)
      | .ok (.val v) =>
        match route.responseField with
        | some shape =>
          match serializeWithShape shape v with
          | some s => (.ok (JSONResponse s), tr)
          | none => (.error .responseValidationFault, tr)
        | none => (.ok (JSONResponse v), tr)
    else
      (.error (.validationFailure solved.errors), tr)

/-- `Route.handle`: store the stringified path parameters on the request,
parse the body for POST/PUT/PATCH (failures swallowed), then run the
resolve-and-invoke cycle. -/
def handle (env : Env) (route : RouteM) (req : Req)
    (pathParams : List (String × Value)) (rawBody : String) :
    Except HandleExc Response × List Event :=
  let req1 := { req with
    pathParams := pathParams.map (fun kv => (kv.1, Value.vStr (pyStr kv.2))) }
  handleCore env route req1 (parseBody env req.method rawBody)

/-- Python `str.upper()` for the ASCII method strings the router compares
(`Route.__init__` upper-cases the registered methods, `Route.matches`
upper-cases the request method). -/
def pyUpper (s : String) : String := String.mk (s.toList.map Char.toUpper)

/-- `Route.matches`: the route matches when its method set contains the
upper-cased request method and its compiled pattern matches the path; the
captured segments are then converted per-parameter. -/
def routeMatches (route : RouteM) (method path : String) :
    Option (List (String × Value)) :=
  if route.methods.contains (pyUpper method) then
    (matchParts route.pattern path.toList).map (fun caps =>
      caps.map (fun kv =>
        (kv.1, convConvert (convFor (patConvertors route.pattern) kv.1) kv.2)))
  else none

/-- The 404 response `LambdaRouter.route` returns when no route matches. -/
def notFoundResponse : Response :=
  { status := 404, content := .vObj [("detail", .vStr "Not Found")] }

/-- `LambdaRouter.route`: iterate registered routes in registration order,
dispatch to the first match, and return the structured 404 response when
none matches. -/
def routeDispatch (env : Env) (routes : List RouteM) (req : Req)
    (rawBody : String) : Except HandleExc Response × List Event :=
  match routes with
  | [] => (.ok notFoundResponse, [])
  | r :: rest =>
    match routeMatches r req.method req.path with
    | some pathParams => handle env r req pathParams rawBody
    | none => routeDispatch env rest req rawBody

/-- Encoding of an error list as the JSON content of the 422 response
(`ExceptionMiddleware._validation_exception_handler`:
`{"detail": exc.errors()}`). -/
def errorsContent (errors : List ErrItem) : Value :=
  .vObj [("detail", .vArr (errors.map (fun e =>
    .vObj [("type", .vStr e.typ), ("loc", .vArr (e.loc.map Value.vStr))])))]

/-- The generic production 500 response
(`ServerErrorMiddleware._error_response`). -/
def internalErrorResponse : Response :=
  { status := 500, content := .vObj [("detail", .vStr "Internal Server Error")] }

/-- The application-level middleware stack around the router
(`FastAPI.build_middleware_stack`, production defaults): a raised
`RequestValidationError` becomes a 422 response carrying all collected
errors (`ExceptionMiddleware`), and every other exception — including the
dependency-shape `RuntimeError`s — becomes the single generic 500 response
(`ServerErrorMiddleware`). -/
def appDispatch (env : Env) (routes : List RouteM) (req : Req)
    (rawBody : String) : Response :=
  match routeDispatch env routes req rawBody with
  | (.ok r, _) => r
  | (.error (.validationFailure errors), _) => { status := 422, content := errorsContent errors }
  | (.error _, _) => internalErrorResponse

/-! ## The dependant graph builder (`get_dependant` / `get_sub_dependant`)

The builder's input is the declaration tree obtained from signature
introspection and `analyze_param`: each parameter is either an already
classified field, a nested dependency marker, or the request-injection
marker.  The `Depends` / `Security` marker classes live in
`fastapi_lambda/params.py`, which is not part of the sources here; their
attributes (`dependency`, `use_cache`, `Security.scopes`) are modelled
from the spec.

Python threads ONE mutable scope list through the recursion:
`get_sub_dependant` does `security_scopes = security_scopes or []` (a
fresh list only when the incoming one is empty) and then
`security_scopes.extend(...)` in place, so extensions made for one child
are visible to the caller — and to later siblings — whenever the incoming
list was non-empty.  The embedding threads the list's value explicitly,
returning to the caller the possibly-extended list exactly when the
incoming list was non-empty.  A `Dependant`'s `cache_key` is frozen at
construction (`__post_init__`), so `securityScopes` stores the list value
at construction time; the mutated final list is consumed by nothing
downstream. -/

mutual

/-- One endpoint parameter after `analyze_param` classification. -/
inductive ParamDecl where
  | fieldDecl : ModelField → ParamDecl
  | dependsDecl : String → DependsDecl → ParamDecl
  | injectDecl : ParamDecl

/-- A `Depends` / `Security` marker: whether it is `params.Security`, its
declared scopes, its `use_cache` flag, and the nested callable. -/
inductive DependsDecl where
  | mk : Bool → List String → Bool → CallDecl → DependsDecl

/-- A nested callable: identity, shape, whether it is a `SecurityBase`
instance, and its own classified parameters. -/
inductive CallDecl where
  | mk : Nat → CallKind → Bool → List ParamDecl → CallDecl

end

/-- Whether the marker is `params.Security`. -/
def DependsDecl.isSecurity : DependsDecl → Bool
  | .mk b _ _ _ => b

/-- The scopes declared on a `Security` marker. -/
def DependsDecl.declScopes : DependsDecl → List String
  | .mk _ s _ _ => s

/-- The marker's `use_cache` flag. -/
def DependsDecl.useCache : DependsDecl → Bool
  | .mk _ _ u _ => u

/-- The marker's nested callable (`depends.dependency`). -/
def DependsDecl.dependency : DependsDecl → CallDecl
  | .mk _ _ _ c => c

/-- The callable's identity. -/
def CallDecl.callId : CallDecl → Nat
  | .mk i _ _ _ => i

/-- The callable's shape. -/
def CallDecl.kind : CallDecl → CallKind
  | .mk _ k _ _ => k

/-- Whether the callable is a `SecurityBase` instance. -/
def CallDecl.isSecurityBase : CallDecl → Bool
  | .mk _ _ b _ => b

/-- The callable's classified parameters. -/
def CallDecl.params : CallDecl → List ParamDecl
  | .mk _ _ _ ps => ps

/-- Accumulator for `get_dependant`'s parameter loop: the sub-dependants,
the partitioned fields, and the current value of the threaded scope
list. -/
structure BuildAcc where
  children : List DepNode
  pathFields : List ModelField
  queryFields : List ModelField
  headerFields : List ModelField
  bodyFields : List ModelField
  scopes : List String

mutual

/-- `dependencies.get_dependant`: build the dependant for a callable,
constructing the node (freezing its cache key from the current scope list)
and classifying each parameter in order — nested dependencies become child
dependants, fields go to the list matching their location, the
request-injection marker is skipped.  Also returns the final value of the
threaded scope list. -/
def get_dependant (call : CallDecl) (name : Option String)
    (scopes : List String) (useCache : Bool) : DepNode × List String :=
  let acc := buildParams call.params scopes
  ({ name := name, callId := call.callId, kind := call.kind, useCache := useCache,
     securityScopes := scopes, securityRequirements := [],
     children := acc.children, pathFields := acc.pathFields,
     queryFields := acc.queryFields, headerFields := acc.headerFields,
     bodyFields := acc.bodyFields }, acc.scopes)
termination_by sizeOf call
decreasing_by
  cases call
  simp only [CallDecl.params, CallDecl.mk.sizeOf_spec]
  omega

/-- The parameter loop of `get_dependant`, threading the scope list. -/
def buildParams : List ParamDecl → List String → BuildAcc
  | [], scopes =>
    { children := [], pathFields := [], queryFields := [], headerFields := [],
      bodyFields := [], scopes := scopes }
  | p :: ps, scopes =>
    match p with
    | .injectDecl => buildParams ps scopes
    | .fieldDecl f =>
      let acc := buildParams ps scopes
      match f.paramIn with
      | .path => { acc with pathFields := f :: acc.pathFields }
      | .query => { acc with queryFields := f :: acc.queryFields }
      | .header => { acc with headerFields := f :: acc.headerFields }
      | .body => { acc with bodyFields := f :: acc.bodyFields }
    | .dependsDecl n d =>
      let sub := get_sub_dependant n d scopes
      let acc := buildParams ps sub.2
      { acc with children := sub.1 :: acc.children }
termination_by ps _ => sizeOf ps
decreasing_by
  all_goals simp only [List.cons.sizeOf_spec, ParamDecl.dependsDecl.sizeOf_spec]
  all_goals omega

/-- `dependencies.get_sub_dependant` (via `get_param_sub_dependant`): for a
`Security` marker extend the scope list with the declared scopes; when the
nested callable is a security scheme, attach a `SecurityRequirement` whose
recorded scope list is `[]` (the source passes `scopes=[]`); build the
child dependant; return it together with the caller-visible scope list
(unchanged when the incoming list was empty, since `or []` then switched
to a fresh list). -/
def get_sub_dependant (name : String) (d : DependsDecl) (scopes : List String) :
    DepNode × List String :=
  let s1 := if d.isSecurity then scopes ++ d.declScopes else scopes
  let built := get_dependant d.dependency (some name) s1 d.useCache
  let secReqs : List SecReq :=
    if d.dependency.isSecurityBase then [{ schemeCallId := d.dependency.callId, scopes := [] }]
    else []
  let node := { built.1 with securityRequirements := built.1.securityRequirements ++ secReqs }
  (node, if scopes.isEmpty then scopes else built.2)
termination_by sizeOf d
decreasing_by
  cases d
  simp only [DependsDecl.dependency, DependsDecl.mk.sizeOf_spec]
  omega

end

/-! ### Concrete fixtures used by the witnesses and counterexamples -/

/-- A dependant node with the given name, callable, shape, cache flag and
children, and no field descriptors. -/
def mkDep (name : Option String) (callId : Nat) (kind : CallKind)
    (useCache : Bool) (children : List DepNode) : DepNode :=
  ⟨name, callId, kind, useCache, [], [], children, [], [], [], []⟩

/-- A dependant node carrying only field descriptors. -/
def mkFieldsDep (pathFs queryFs headerFs bodyFs : List ModelField) : DepNode :=
  ⟨none, 0, .plainAsync, true, [], [], [], pathFs, queryFs, headerFs, bodyFs⟩

/-- An environment whose callables return `i + 1` at their `i`-th invocation
(an incrementing counter seeded at 0) and whose JSON parser always fails. -/
def counterEnv : Env := ⟨fun _ i => .vInt (Int.ofNat i + 1), fun _ => none⟩

/-- An empty `GET /health` request. -/
def getReq : Req := ⟨"GET", "/health", [], [], []⟩

/-- Two sibling sub-dependants sharing the counter callable `7`, both with
caching enabled. -/
def c1CachedTree : DepNode :=
  mkDep none 0 .plainAsync true
    [mkDep (some "x") 7 .plainAsync true [],
     mkDep (some "y") 7 .plainAsync true []]

/-- The same two-sibling shape with caching disabled at both occurrences of
callable `7`. -/
def c1UncachedTree : DepNode :=
  mkDep none 0 .plainAsync true
    [mkDep (some "x") 7 .plainAsync false [],
     mkDep (some "y") 7 .plainAsync false []]

/-- A fixture route: `GET /health` with a trivial endpoint. -/
def healthRoute : RouteM :=
  ⟨[.lit "/health".toList], ["GET"], mkDep none 0 .plainAsync true [],
    fun _ => .ok (.val .vNull), none⟩

/-- A plain (non-model) field descriptor fixture. -/
def mkField (nm al : String) (pin : ParamIn) (required : Bool) (dflt : Value)
    (vald : Value → Value ⊕ List ErrItem) : ModelField :=
  ⟨nm, al, pin, required, dflt, vald, false, [], false⟩

/-- A validator that accepts every value unchanged. -/
def acceptAll : Value → Value ⊕ List ErrItem := fun v => Sum.inl v

/-- A validator that rejects every value with a single relative error. -/
def rejectAll : Value → Value ⊕ List ErrItem :=
  fun _ => Sum.inr [{ typ := "value_error", loc := [] }]

/-! ## Theorems -/

/-- Characters inside a converter's maximal run all satisfy the converter's
character class. -/
theorem takeRun_take_matches (conv : Conv) :
    ∀ (s : List Char) (k : Nat), k ≤ takeRun conv s →
      ∀ c ∈ s.take k, convMatches conv c = true := by
  intro s
  induction s with
  | nil => intro k _ c hc; simp at hc
  | cons a as ih =>
    intro k hk c hc
    by_cases ha : convMatches conv a = true
    · cases k with
      | zero => simp at hc
      | succ k' =>
        rw [List.take_succ_cons] at hc
        rcases List.mem_cons.mp hc with rfl | hc'
        · exact ha
        · have hk' : k' ≤ takeRun conv as := by
            have : takeRun conv (a :: as) = takeRun conv as + 1 := by
              simp [takeRun, ha]
            omega
          exact ih k' hk' c hc'
    · have h0 : takeRun conv (a :: as) = 0 := by
        simp [takeRun, ha]
      have : k = 0 := by omega
      subst this
      simp at hc

/-- A successful match of an integer-converter group captures a non-empty,
digits-only segment. -/
theorem matchParts_int_digits (nm : String) (ps : List PatPart) (s : List Char)
    (caps : List (String × String))
    (h : matchParts (.param nm .int :: ps) s = some caps) :
    ∃ seg rest, caps = (nm, String.mk seg) :: rest ∧ seg ≠ [] ∧
      ∀ c ∈ seg, c.isDigit = true := by
  rw [matchParts] at h
  obtain ⟨k, hkmem, hkeq⟩ := List.exists_of_findSome?_eq_some h
  obtain ⟨rest, _, hcaps⟩ := Option.map_eq_some'.mp hkeq
  have hk : convMinLen .int ≤ k ∧ k < takeRun .int s + 1 := by
    have := List.mem_filter.mp ((by simpa [candidateLens] using hkmem :
      k ∈ ((List.range (takeRun .int s + 1)).reverse.filter
        (fun j => decide (convMinLen .int ≤ j)))))
    refine ⟨by simpa using this.2, ?_⟩
    have := List.mem_reverse.mp this.1
    exact List.mem_range.mp this
  refine ⟨s.take k, rest, hcaps.symm, ?_, ?_⟩
  · have h1 : 1 ≤ k := by simpa [convMinLen] using hk.1
    have : (s.take k).length = min k s.length := by simp
    intro hnil
    rw [hnil] at this
    simp at this
    have hrun : takeRun .int s ≤ s.length := by
      clear * -
      induction s with
      | nil => simp [takeRun]
      | cons a as ih =>
        by_cases ha : convMatches .int a = true
        · simp [takeRun, ha]; omega
        · simp [takeRun, ha]
    omega
  · intro c hc
    have := takeRun_take_matches .int s k (by omega) c hc
    simpa [convMatches] using this

/-- First-match dispatch: when every earlier route fails to match and `r`
matches, dispatch handles `r`. -/
theorem routeDispatch_first_match (env : Env) :
    ∀ (pre : List RouteM) (r : RouteM) (post : List RouteM) (req : Req)
      (raw : String) (pp : List (String × Value)),
      (∀ r' ∈ pre, routeMatches r' req.method req.path = none) →
      routeMatches r req.method req.path = some pp →
      routeDispatch env (pre ++ r :: post) req raw = handle env r req pp raw := by
  intro pre
  induction pre with
  | nil =>
    intro r post req raw pp _ hr
    simp [routeDispatch, hr]
  | cons x xs ih =>
    intro r post req raw pp hpre hr
    have hx : routeMatches x req.method req.path = none := hpre x (by simp)
    simp only [List.cons_append, routeDispatch, hx]
    exact ih r post req raw pp (fun r' hm => hpre r' (by simp [hm])) hr

/-- When no registered route matches, dispatch returns the structured 404
response (no exception). -/
theorem routeDispatch_no_match (env : Env) :
    ∀ (routes : List RouteM) (req : Req) (raw : String),
      (∀ r ∈ routes, routeMatches r req.method req.path = none) →
      routeDispatch env routes req raw = (.ok notFoundResponse, []) := by
  intro routes
  induction routes with
  | nil => intro req raw _; rfl
  | cons x xs ih =>
    intro req raw hall
    have hx : routeMatches x req.method req.path = none := hall x (by simp)
    simp only [routeDispatch, hx]
    exact ih req raw (fun r hm => hall r (by simp [hm]))

/-- C5: dispatch selects the first route in registration order whose method
set contains the request method and whose compiled pattern matches the
path; an integer-converter group only ever captures a non-empty digits-only
segment, so the compiled pattern of the route path `/items/{item_id:int}` does not
match `/items/abc`; and when no route matches, dispatch returns the
structured `detail: Not Found` response with status 404
rather than raising. -/
theorem c5_route_matching_and_dispatch (env : Env) (pre post routes : List RouteM)
    (r : RouteM) (req : Req) (raw : String) (pp : List (String × Value))
    (nm : String) (ps : List PatPart) (s : List Char)
    (caps : List (String × String)) :
    ((∀ r' ∈ pre, routeMatches r' req.method req.path = none) →
      routeMatches r req.method req.path = some pp →
      routeDispatch env (pre ++ r :: post) req raw = handle env r req pp raw)
    ∧ (matchParts (.param nm .int :: ps) s = some caps →
        ∃ seg rest, caps = (nm, String.mk seg) :: rest ∧ seg ≠ [] ∧
          ∀ c ∈ seg, c.isDigit = true)
    ∧ matchParts [.lit "/items/".toList, .param "item_id" .int]
        "/items/abc".toList = none
    ∧ notFoundResponse.status = 404
    ∧ ((∀ r' ∈ routes, routeMatches r' req.method req.path = none) →
        routeDispatch env routes req raw = (.ok notFoundResponse, []) ∧
        appDispatch env routes req raw = notFoundResponse) := by
  refine ⟨routeDispatch_first_match env pre r post req raw pp,
    matchParts_int_digits nm ps s caps, ?_, rfl, ?_⟩
  · have h1 : 'a'.isDigit = false := rfl
    have h2 : 'b'.isDigit = false := rfl
    have h3 : 'c'.isDigit = false := rfl
    simp [matchParts, candidateLens, takeRun, convMatches, convMinLen, h1, h2, h3]
  · intro hall
    have hd := routeDispatch_no_match env routes req raw hall
    exact ⟨hd, by simp [appDispatch, hd]⟩

/-- Witness for C5 at concrete inputs: a one-route table where the route
matches `GET /health` and dispatch handles that route. -/
theorem c5_witness :
    (routeMatches healthRoute "GET" "/health" = some []) ∧
    routeDispatch counterEnv [healthRoute] getReq "" =
      handle counterEnv healthRoute getReq [] "" := by
  have hmatch : routeMatches healthRoute "GET" "/health" = some [] := by
    have hup : pyUpper "GET" = "GET" := by decide
    simp [routeMatches, healthRoute, matchParts, hup]
  refine ⟨hmatch, ?_⟩
  have h := c5_route_matching_and_dispatch counterEnv [] [] [] healthRoute
    getReq "" [] "x" [] [] []
  exact h.1 (by simp) (by simpa [getReq] using hmatch)

/-- The error list produced by the per-field loop of
`extract_params_from_dict` is the concatenation, in field order, of each
field's own errors. -/
theorem perField_errors_decomp (received : List (String × Value)) :
    ∀ (fields : List ModelField) (acc : List (String × Value) × List ErrItem),
      (fields.foldl (fun acc field =>
          let res := fieldOutcome field received
          if res.2.isEmpty then (dictSet acc.1 field.name res.1, acc.2)
          else (acc.1, acc.2 ++ res.2)) acc).2
        = acc.2 ++ fields.flatMap (fun g => (fieldOutcome g received).2) := by
  intro fields
  induction fields with
  | nil => intro acc; simp
  | cons g gs ih =>
    intro acc
    simp only [List.foldl_cons, List.flatMap_cons]
    rw [ih]
    by_cases hg : (fieldOutcome g received).2.isEmpty
    · rw [List.isEmpty_iff] at hg
      simp [hg]
    · simp only [if_neg hg, List.append_assoc]

/-- C6 (counterexample to the original claim): the alias-or-name lookup in
`extract_params_from_dict` is Python `get(alias) or get(name)`, so a
present-but-falsy raw value (here the empty string) stored under an alias
distinct from the declared name, with the name absent, is treated as
absent: the field resolves to its default and the validation capability —
which here rejects every value — is never consulted. -/
theorem c6_counterexample :
    extract_params_from_dict
        [mkField "q" "qa" .query false (.vStr "d") rejectAll]
        [("qa", .vStr "")]
      = ([("q", .vStr "d")], []) ∧
    (∀ v, (mkField "q" "qa" .query false (.vStr "d") rejectAll).validate v
      = Sum.inr [{ typ := "value_error", loc := [] }]) ∧
    dictGet [("qa", .vStr "")] "qa" = some (.vStr "") := by
  exact ⟨by decide, fun v => rfl, by decide⟩

/-- C6 (amended): during extraction, a field whose alias-or-name lookup
(`get(alias) or get(name)`, where a falsy alias value falls through to the
name lookup) yields nothing falls back to its declared default, a required
field producing a "missing" error tagged `(category, alias)`; whenever the
lookup yields a value, the value is run through the schema-validation
capability; and the errors of a plain field list are the concatenation of
the per-field errors, so independent fields default or fail
independently. -/
theorem c6_defaulting_and_validation (f : ModelField) (src : List (String × Value))
    (fields : List ModelField) (hf : f.isBaseModel = false) :
    (fieldLookup f src = none → f.required = false →
      extract_params_from_dict [f] src = ([(f.name, f.default)], []))
    ∧ (fieldLookup f src = none → f.required = true →
      extract_params_from_dict [f] src
        = ([], [missingFieldError [f.paramIn.value, f.aliasName]]))
    ∧ (∀ v, fieldLookup f src = some v →
      extract_params_from_dict [f] src
        = (if (validate_value_with_model_field f (some v)
                [f.paramIn.value, f.aliasName]).2.isEmpty then
            ([(f.name, (validate_value_with_model_field f (some v)
                [f.paramIn.value, f.aliasName]).1)], [])
          else
            ([], (validate_value_with_model_field f (some v)
                [f.paramIn.value, f.aliasName]).2)))
    ∧ ((∀ g ∈ fields, g.isBaseModel = false) →
      (extract_params_from_dict fields src).2
        = fields.flatMap (fun g => (fieldOutcome g src).2)) := by
  refine ⟨?_, ?_, ?_, ?_⟩
  · intro hlook hreq
    simp [extract_params_from_dict, hf, fieldOutcome, hlook,
      validate_value_with_model_field, hreq, dictSet]
  · intro hlook hreq
    simp [extract_params_from_dict, hf, fieldOutcome, hlook,
      validate_value_with_model_field, hreq]
  · intro v hlook
    have hout : fieldOutcome f src
        = validate_value_with_model_field f (some v) [f.paramIn.value, f.aliasName] := by
      simp [fieldOutcome, hlook]
    by_cases hemp : (validate_value_with_model_field f (some v)
        [f.paramIn.value, f.aliasName]).2.isEmpty
    · simp [extract_params_from_dict, hf, hout, hemp, dictSet]
      exact List.isEmpty_iff.mp hemp
    · simp [extract_params_from_dict, hf, hout, hemp]
      intro h
      rw [h] at hemp
      simp at hemp
  · intro hall
    match fields, hall with
    | [], _ => simp [extract_params_from_dict]
    | g :: gs, hall =>
      have hg : g.isBaseModel = false := hall g (by simp)
      simp only [extract_params_from_dict, hg]
      rw [if_neg (by simp [hg])]
      exact perField_errors_decomp src (g :: gs) ([], [])

/-- Witness for C6 at concrete inputs (the spec's Scenario B): required
`q` and optional `limit` with default 10; a request that omits both yields
exactly the missing-`q` error while `limit` falls back to 10, and a
present value is validated. -/
theorem c6_witness :
    (fieldLookup (mkField "q" "q" .query true .vNull acceptAll) [] = none ∧
      (mkField "q" "q" .query true .vNull acceptAll).required = true ∧
      extract_params_from_dict [mkField "q" "q" .query true .vNull acceptAll] []
        = ([], [missingFieldError ["query", "q"]])) ∧
    (fieldLookup (mkField "limit" "limit" .query false (.vInt 10) acceptAll) [] = none ∧
      extract_params_from_dict
          [mkField "limit" "limit" .query false (.vInt 10) acceptAll] []
        = ([("limit", .vInt 10)], [])) ∧
    (fieldLookup (mkField "limit" "limit" .query false (.vInt 10) acceptAll)
        [("limit", .vStr "3")] = some (.vStr "3") ∧
      extract_params_from_dict
          [mkField "limit" "limit" .query false (.vInt 10) acceptAll]
          [("limit", .vStr "3")]
        = ([("limit", .vStr "3")], [])) ∧
    extract_params_from_dict
        [mkField "q" "q" .query true .vNull acceptAll,
         mkField "limit" "limit" .query false (.vInt 10) acceptAll] []
      = ([("limit", .vInt 10)], [missingFieldError ["query", "q"]]) := by
  refine ⟨⟨by decide, rfl, ?_⟩, ⟨by decide, ?_⟩, ⟨by decide, ?_⟩, by decide⟩
  · exact ((c6_defaulting_and_validation
      (mkField "q" "q" .query true .vNull acceptAll) [] [] rfl).2.1) (by decide) rfl
  · exact ((c6_defaulting_and_validation
      (mkField "limit" "limit" .query false (.vInt 10) acceptAll) [] [] rfl).1)
      (by decide) rfl
  · have h := ((c6_defaulting_and_validation
      (mkField "limit" "limit" .query false (.vInt 10) acceptAll)
      [("limit", .vStr "3")] [] rfl).2.2.1) (.vStr "3") (by decide)
    rw [h]
    decide

/-- The error list produced by the embedded-body loop of
`extract_body_params` is the concatenation, in field order, of each
field's own errors. -/
theorem bodyField_errors_decomp (body : Option Value) :
    ∀ (fields : List ModelField) (acc : List (String × Value) × List ErrItem),
      (fields.foldl (fun (acc : List (String × Value) × List ErrItem) field =>
          match body with
          | some (Value.vObj _) | none =>
            let res := bodyFieldOutcome field body
            if res.2.isEmpty then (dictSet acc.1 field.name res.1, acc.2)
            else (acc.1, acc.2 ++ res.2)
          | some _ =>
            (acc.1, acc.2 ++ [missingFieldError ["body", field.aliasName]])) acc).2
        = acc.2 ++ fields.flatMap (fun g => (bodyFieldOutcome g body).2) := by
  intro fields
  induction fields with
  | nil => intro acc; simp
  | cons g gs ih =>
    intro acc
    simp only [List.foldl_cons, List.flatMap_cons]
    rw [ih]
    match body with
    | none =>
      by_cases hg : (bodyFieldOutcome g none).2.isEmpty
      · rw [List.isEmpty_iff] at hg
        simp [hg]
      · simp only [if_neg hg, List.append_assoc]
    | some (Value.vObj kvs) =>
      by_cases hg : (bodyFieldOutcome g (some (Value.vObj kvs))).2.isEmpty
      · rw [List.isEmpty_iff] at hg
        simp [hg]
      · simp only [if_neg hg, List.append_assoc]
    | some .vNull | some (.vBool _) | some (.vInt _) | some (.vStr _)
    | some (.vArr _) =>
      simp [bodyFieldOutcome, List.append_assoc]

/-- C8: a single body field without the embed marker receives the parsed
body directly, validated at `("body",)`; two or more distinct body field
names, or an explicit embed marker, force embedding, and in the embedded
case each field is looked up by its own alias inside the body mapping and
validated at `("body", alias)`, the errors aggregating per field. -/
theorem c8_body_embedding (f : ModelField) (fields : List ModelField)
    (body : Option Value) (kvs : List (String × Value)) :
    (f.embed = false →
      extract_body_params [f] body
        = ([(f.name, (validate_value_with_model_field f body ["body"]).1)],
           (validate_value_with_model_field f body ["body"]).2))
    ∧ (1 < ((fields.map (fun g => g.name)).dedup).length →
        should_embed_body_fields fields = true)
    ∧ (∀ rest, fields = f :: rest → f.embed = true →
        should_embed_body_fields fields = true)
    ∧ (bodyFieldOutcome f (some (.vObj kvs))
        = validate_value_with_model_field f (pyGet kvs f.aliasName)
            ["body", f.aliasName])
    ∧ (fields ≠ [] → should_embed_body_fields fields = true →
        (extract_body_params fields body).2
          = fields.flatMap (fun g => (bodyFieldOutcome g body).2)) := by
  refine ⟨?_, ?_, ?_, rfl, ?_⟩
  · intro hemb
    simp [extract_body_params, should_embed_body_fields, hemb]
  · intro hlen
    match fields with
    | [] => simp at hlen
    | g :: gs =>
      simp only [should_embed_body_fields]
      rw [if_pos (by simpa using hlen)]
  · intro rest hfeq hemb
    subst hfeq
    simp [should_embed_body_fields, hemb]
  · intro hne hembed
    match fields, hne with
    | g :: gs, _ =>
      have hnotsingle : ¬(gs.isEmpty = true ∧
          ¬should_embed_body_fields (g :: gs) = true) := by
        simp [hembed]
      simp only [extract_body_params, hembed]
      rw [if_neg (by simp [hembed])]
      exact bodyField_errors_decomp body (g :: gs) ([], [])

/-- Witness for C8 at concrete inputs: a lone unmarked body field absorbs
the whole body at `("body",)`; two distinct body field names force
embedding, with per-alias lookup at `("body", alias)`. -/
theorem c8_witness :
    ((mkField "item" "item" .body true .vNull acceptAll).embed = false ∧
      extract_body_params [mkField "item" "item" .body true .vNull acceptAll]
          (some (.vObj [("x", .vInt 1)]))
        = ([("item", .vObj [("x", .vInt 1)])], [])) ∧
    should_embed_body_fields
        [mkField "a" "a" .body true .vNull acceptAll,
         mkField "b" "b" .body true .vNull acceptAll] = true ∧
    extract_body_params
        [mkField "a" "a" .body true .vNull acceptAll,
         mkField "b" "b" .body true .vNull acceptAll]
        (some (.vObj [("a", .vInt 1)]))
      = ([("a", .vInt 1)], [missingFieldError ["body", "b"]]) := by
  refine ⟨⟨rfl, ?_⟩, ?_, by decide⟩
  · have h := (c8_body_embedding (mkField "item" "item" .body true .vNull acceptAll)
      [] (some (.vObj [("x", .vInt 1)])) []).1 rfl
    rw [h]
    decide
  · exact (c8_body_embedding (mkField "a" "a" .body true .vNull acceptAll)
      [mkField "a" "a" .body true .vNull acceptAll,
       mkField "b" "b" .body true .vNull acceptAll]
      none []).2.1 (by decide)

/-- C9: after a successful invocation, a result that is already a finalized
response object is passed through to the caller unchanged; otherwise with a
declared output shape the value is validated-and-serialized against it —
the serialized object carries exactly the declared field names, extra
fields dropped — before being wrapped; and without a shape the value is
wrapped as a generic JSON response. -/
theorem c9_response_serialization (env : Env) (route : RouteM) (req : Req)
    (body : Option Value) (solved : Solved) (st : SolveSt) (r : Response)
    (v : Value) (shape : RespShape) (s : Value)
    (hsolve : solveDeps env req body route.dependant
      { cache := [], stack := [], trace := [] } = .ok (solved, st))
    (herrs : solved.errors = []) :
    (route.endpoint solved.values = .ok (.resp r) →
      handleCore env route req body = (.ok r, st.trace ++ teardownEvents st.stack))
    ∧ (route.endpoint solved.values = .ok (.val v) →
        route.responseField = some shape →
        serializeWithShape shape v = some s →
        handleCore env route req body
          = (.ok (JSONResponse s), st.trace ++ teardownEvents st.stack))
    ∧ (∀ kvs out, serializeWithShape shape (.vObj kvs) = some out →
        ∃ outkvs, out = .vObj outkvs ∧ outkvs.map Prod.fst = shape.fieldNames)
    ∧ (route.endpoint solved.values = .ok (.val v) →
        route.responseField = none →
        handleCore env route req body
          = (.ok (JSONResponse v), st.trace ++ teardownEvents st.stack)) := by
  refine ⟨?_, ?_, ?_, ?_⟩
  · intro hend
    simp [handleCore, hsolve, herrs, hend]
  · intro hend hshape hser
    simp [handleCore, hsolve, herrs, hend, hshape, hser]
  · intro kvs out hser
    simp only [serializeWithShape] at hser
    by_cases hall : shape.fieldNames.all (fun n => (dictGet kvs n).isSome)
    · rw [if_pos hall] at hser
      refine ⟨shape.fieldNames.map (fun n => (n, (dictGet kvs n).getD .vNull)),
        (Option.some.inj hser).symm, ?_⟩
      simp [Function.comp_def]
    · rw [if_neg hall] at hser
      cases hser
  · intro hend hshape
    simp [handleCore, hsolve, herrs, hend, hshape]

/-- C10: only POST, PUT and PATCH requests have their body parsed; an
absent/empty body, a JSON `null` body and a body that fails to parse all
leave the body `None` (the parse failure is swallowed, never producing a
parse-error response by itself), `Route.handle` proceeds to dependency
resolution with that `None` body, and body fields are then treated as
absent — defaults applied, or a missing-field error for required body
fields. -/
theorem c10_null_body_resolution (env : Env) (method raw : String)
    (route : RouteM) (req : Req) (pp : List (String × Value))
    (f : ModelField) (fields : List ModelField) (loc : List String) :
    (¬(method = "POST" ∨ method = "PUT" ∨ method = "PATCH") →
      parseBody env method raw = none)
    ∧ (raw = "" → parseBody env method raw = none)
    ∧ (env.jsonParse raw = none → parseBody env method raw = none)
    ∧ (env.jsonParse raw = some .vNull → parseBody env method raw = none)
    ∧ (handle env route req pp raw
        = handleCore env route
            { req with pathParams := pp.map (fun kv => (kv.1, Value.vStr (pyStr kv.2))) }
            (parseBody env req.method raw))
    ∧ (validate_value_with_model_field f none loc
        = if f.required then (Value.vNull, [missingFieldError loc]) else (f.default, []))
    ∧ (f.embed = false →
        extract_body_params [f] none
          = ([(f.name, (validate_value_with_model_field f none ["body"]).1)],
             (validate_value_with_model_field f none ["body"]).2))
    ∧ (fields ≠ [] → should_embed_body_fields fields = true →
        (extract_body_params fields none).2
          = fields.flatMap (fun g =>
              (validate_value_with_model_field g none ["body", g.aliasName]).2)) := by
  refine ⟨?_, ?_, ?_, ?_, rfl, ?_, ?_, ?_⟩
  · intro hm
    simp [parseBody, hm]
  · intro hraw
    subst hraw
    have h0 : "".isEmpty = true := by decide
    simp [parseBody, h0]
  · intro hp
    simp [parseBody, hp]
  · intro hp
    simp [parseBody, hp]
  · rfl
  · intro hemb
    simp [extract_body_params, should_embed_body_fields, hemb]
  · intro hne hembed
    match fields, hne with
    | g :: gs, _ =>
      simp only [extract_body_params, hembed]
      rw [if_neg (by simp [hembed])]
      have h := bodyField_errors_decomp none (g :: gs) ([], [])
      simpa [bodyFieldOutcome] using h

/-- Witness for C9 at concrete inputs: an endpoint returning an object with
an extra field, serialized through the declared shape `["name"]` — the
extra field is dropped. -/
theorem c9_witness :
    solveDeps counterEnv getReq none (mkDep none 0 .plainAsync true [])
        { cache := [], stack := [], trace := [] }
      = .ok ({ values := [], errors := [] }, { cache := [], stack := [], trace := [] }) ∧
    handleCore counterEnv
        ⟨[.lit "/u".toList], ["GET"], mkDep none 0 .plainAsync true [],
          fun _ => .ok (.val (.vObj [("name", .vStr "n"), ("extra", .vInt 5)])),
          some ⟨["name"]⟩⟩
        getReq none
      = (.ok (JSONResponse (.vObj [("name", .vStr "n")])), []) := by
  have hsolve : solveDeps counterEnv getReq none (mkDep none 0 .plainAsync true [])
      { cache := [], stack := [], trace := [] }
      = .ok ({ values := [], errors := [] }, { cache := [], stack := [], trace := [] }) := by
    simp [solveDeps, solveChildren, extractOwn, extract_params_from_dict, mkDep, dictUpdate]
  refine ⟨hsolve, ?_⟩
  have h := (c9_response_serialization counterEnv
    ⟨[.lit "/u".toList], ["GET"], mkDep none 0 .plainAsync true [],
      fun _ => .ok (.val (.vObj [("name", .vStr "n"), ("extra", .vInt 5)])),
      some ⟨["name"]⟩⟩
    getReq none { values := [], errors := [] } { cache := [], stack := [], trace := [] }
    (JSONResponse .vNull) (.vObj [("name", .vStr "n"), ("extra", .vInt 5)])
    ⟨["name"]⟩ (.vObj [("name", .vStr "n")]) hsolve rfl).2.1 rfl rfl (by decide)
  simpa [teardownEvents] using h

/-- Witness for C10 at concrete inputs: a GET request and an unparsable
POST body both resolve with a null body; a required single body field then
yields the missing-field error at `("body",)` while an optional one takes
its default. -/
theorem c10_witness :
    parseBody counterEnv "GET" "x" = none ∧
    parseBody counterEnv "POST" "not json" = none ∧
    extract_body_params [mkField "item" "item" .body true .vNull acceptAll] none
      = ([("item", .vNull)], [missingFieldError ["body"]]) ∧
    extract_body_params [mkField "opt" "opt" .body false (.vArr []) acceptAll] none
      = ([("opt", .vArr [])], []) := by
  have h1 := (c10_null_body_resolution counterEnv "GET" "x" healthRoute getReq []
    (mkField "item" "item" .body true .vNull acceptAll) [] ["body"]).1 (by decide)
  have h2 := (c10_null_body_resolution counterEnv "POST" "not json" healthRoute getReq []
    (mkField "item" "item" .body true .vNull acceptAll) [] ["body"]).2.2.1 rfl
  have h3 := (c10_null_body_resolution counterEnv "GET" "x" healthRoute getReq []
    (mkField "item" "item" .body true .vNull acceptAll) [] ["body"]).2.2.2.2.2.2.1 rfl
  have h4 := (c10_null_body_resolution counterEnv "GET" "x" healthRoute getReq []
    (mkField "opt" "opt" .body false (.vArr []) acceptAll) [] ["body"]).2.2.2.2.2.2.1 rfl
  refine ⟨h1, h2, ?_, ?_⟩
  · rw [h3]; decide
  · rw [h4]; decide

/-- Projections of a `get_dependant` result. -/
theorem get_dependant_proj (call : CallDecl) (name : Option String)
    (scopes : List String) (uc : Bool) :
    (get_dependant call name scopes uc).1.securityScopes = scopes ∧
    (get_dependant call name scopes uc).1.children
      = (buildParams call.params scopes).children ∧
    (get_dependant call name scopes uc).2 = (buildParams call.params scopes).scopes := by
  rw [get_dependant]
  exact ⟨rfl, rfl, rfl⟩

/-- The record update in `get_sub_dependant` touches only the security
requirements; scopes and children come straight from `get_dependant`, and
the returned scope list is the built one unless the incoming list was
empty. -/
theorem get_sub_dependant_proj (nm : String) (d : DependsDecl) (scopes : List String) :
    (get_sub_dependant nm d scopes).1.securityScopes
        = (if d.isSecurity = true then scopes ++ d.declScopes else scopes) ∧
    (get_sub_dependant nm d scopes).1.children
        = (get_dependant d.dependency (some nm)
            (if d.isSecurity = true then scopes ++ d.declScopes else scopes)
            d.useCache).1.children ∧
    (get_sub_dependant nm d scopes).2
        = (if scopes.isEmpty then scopes
           else (get_dependant d.dependency (some nm)
            (if d.isSecurity = true then scopes ++ d.declScopes else scopes)
            d.useCache).2) := by
  rw [get_sub_dependant]
  refine ⟨?_, rfl, rfl⟩
  rw [(get_dependant_proj d.dependency (some nm)
    (if d.isSecurity = true then scopes ++ d.declScopes else scopes) d.useCache).1]

/-- Unfolding `allNodesNode`: a node followed by the nodes of its
children. -/
theorem allNodesNode_unfold (n : DepNode) :
    allNodesNode n = n :: allNodesList n.children := by
  rw [allNodesNode]

/-- Scope accumulation in the builder: every node of a built dependant tree
carries (at least) the scopes that were passed in when building it, and the
threaded scope list only ever grows by appending. -/
theorem build_scopes_spec :
    ∀ (call : CallDecl) (name : Option String) (scopes : List String) (uc : Bool),
      (∀ node ∈ allNodesNode (get_dependant call name scopes uc).1,
        scopes ⊆ node.securityScopes) ∧
      (∃ t, (get_dependant call name scopes uc).2 = scopes ++ t) := by
  refine get_dependant.induct
    (fun call name scopes uc =>
      (∀ node ∈ allNodesNode (get_dependant call name scopes uc).1,
        scopes ⊆ node.securityScopes) ∧
      (∃ t, (get_dependant call name scopes uc).2 = scopes ++ t))
    (fun ps scopes =>
      (∀ node ∈ allNodesList (buildParams ps scopes).children,
        scopes ⊆ node.securityScopes) ∧
      (∃ t, (buildParams ps scopes).scopes = scopes ++ t))
    (fun nm d scopes =>
      (∀ node ∈ allNodesNode (get_sub_dependant nm d scopes).1,
        scopes ⊆ node.securityScopes) ∧
      (∃ t, (get_sub_dependant nm d scopes).2 = scopes ++ t))
    ?_ ?_ ?_ ?_ ?_ ?_ ?_ ?_ ?_
  · intro call name scopes uc ih
    obtain ⟨ihsub, t, ht⟩ := ih
    constructor
    · intro node hnode
      rw [allNodesNode_unfold, (get_dependant_proj call name scopes uc).2.1] at hnode
      rcases List.mem_cons.mp hnode with rfl | hmem
      · rw [(get_dependant_proj call name scopes uc).1]
        exact List.Subset.refl scopes
      · exact ihsub node hmem
    · exact ⟨t, by rw [(get_dependant_proj call name scopes uc).2.2]; exact ht⟩
  · intro scopes
    constructor
    · intro node hnode
      rw [buildParams] at hnode
      simp [allNodesList] at hnode
    · exact ⟨[], by rw [buildParams]; simp⟩
  · intro ps scopes ih
    rw [buildParams]
    exact ih
  all_goals try
    (intro ps scopes f hf ih
     obtain ⟨ihsub, t, ht⟩ := ih
     rw [buildParams]
     simp only [hf]
     exact ⟨ihsub, t, ht⟩)
  · intro ps scopes n d sub ih3 ih2
    obtain ⟨ih3sub, t1, ht1⟩ := ih3
    obtain ⟨ih2sub, t2, ht2⟩ := ih2
    have hgrow : scopes ⊆ sub.2 := by
      rw [ht1]
      exact List.subset_append_left scopes t1
    constructor
    · intro node hnode
      rw [buildParams] at hnode
      simp only [allNodesList] at hnode
      rcases List.mem_append.mp hnode with hmem | hmem
      · exact ih3sub node hmem
      · exact List.Subset.trans hgrow (ih2sub node hmem)
    · refine ⟨t1 ++ t2, ?_⟩
      have ht2a : (buildParams (ParamDecl.dependsDecl n d :: ps) scopes).scopes
          = (buildParams ps sub.2).scopes := by
        rw [buildParams]
      rw [ht2a, ht2, ht1, List.append_assoc]
  · intro name d scopes s1 ih
    obtain ⟨ihsub, t, ht⟩ := ih
    have hs1eq : s1 = (if d.isSecurity = true then scopes ++ d.declScopes else scopes) := by
      by_cases hsec : d.isSecurity = true
      · simp only [s1, dif_pos hsec, if_pos hsec]
      · simp only [s1, dif_neg hsec, if_neg hsec]
    have hs1 : scopes ⊆ s1 := by
      rw [hs1eq]
      by_cases hsec : d.isSecurity = true
      · simp only [if_pos hsec]
        exact List.subset_append_left scopes d.declScopes
      · simp only [if_neg hsec]
        exact List.Subset.refl scopes
    constructor
    · intro node hnode
      rw [allNodesNode_unfold, (get_sub_dependant_proj name d scopes).2.1] at hnode
      rcases List.mem_cons.mp hnode with rfl | hmem
      · rw [(get_sub_dependant_proj name d scopes).1, ← hs1eq]
        exact hs1
      · refine List.Subset.trans hs1 ?_
        rw [hs1eq] at ihsub
        refine ihsub node ?_
        rw [allNodesNode_unfold]
        exact List.mem_cons_of_mem _ hmem
    · by_cases hemp : scopes.isEmpty
      · refine ⟨[], ?_⟩
        rw [(get_sub_dependant_proj name d scopes).2.2, if_pos hemp]
        simp
      · have hs1app : ∃ t0, s1 = scopes ++ t0 := by
          rw [hs1eq]
          by_cases hsec : d.isSecurity = true
          · exact ⟨d.declScopes, by simp only [if_pos hsec]⟩
          · exact ⟨[], by simp only [if_neg hsec]; simp⟩
        obtain ⟨t0, ht0⟩ := hs1app
        refine ⟨t0 ++ t, ?_⟩
        rw [(get_sub_dependant_proj name d scopes).2.2, if_neg hemp, ← hs1eq, ht,
          ht0, List.append_assoc]

/-- A dependant built by `get_dependant` itself carries no security
requirement (only `get_sub_dependant` attaches one). -/
theorem get_dependant_no_secreqs (call : CallDecl) (name : Option String)
    (scopes : List String) (uc : Bool) :
    (get_dependant call name scopes uc).1.securityRequirements = [] := by
  rw [get_dependant]

/-- C7 (counterexample to the original claim): a `Security` marker with
declared scope `"read"` over a security-scheme callable produces a node
whose accumulated scope set is `["read"]` but whose attached
security-requirement record carries the EMPTY scope list — the source
passes `scopes=[]` when constructing `SecurityRequirement`, not the
accumulated scopes. -/
theorem c7_counterexample :
    ((get_sub_dependant "s"
        (DependsDecl.mk true ["read"] true (CallDecl.mk 9 .plainAsync true []))
        []).1.securityScopes = ["read"]) ∧
    ((get_sub_dependant "s"
        (DependsDecl.mk true ["read"] true (CallDecl.mk 9 .plainAsync true []))
        []).1.securityRequirements = [{ schemeCallId := 9, scopes := [] }]) := by
  constructor <;>
    simp [get_sub_dependant, get_dependant, buildParams, DependsDecl.isSecurity,
      DependsDecl.declScopes, DependsDecl.dependency, DependsDecl.useCache,
      CallDecl.params, CallDecl.callId, CallDecl.isSecurityBase, CallDecl.kind]

/-- C7 (amended): a parent's scopes are unioned into each descendant's
scope set before recursing (every node of a built subtree carries at least
the scopes passed in); a node whose callable is a security scheme gets a
security-requirement record identifying the scheme but carrying an EMPTY
scope list; and every node's identity key equals (callable reference,
sorted unique scopes), so two nodes are cache-equivalent exactly when
their callables coincide and their scope sets are equal. -/
theorem c7_scopes_and_cache_keys (nm : String) (d : DependsDecl)
    (scopes : List String) (n m : DepNode) :
    (∀ node ∈ allNodesNode (get_sub_dependant nm d scopes).1,
      scopes ⊆ node.securityScopes)
    ∧ (d.dependency.isSecurityBase = true →
      (get_sub_dependant nm d scopes).1.securityRequirements
        = [{ schemeCallId := d.dependency.callId, scopes := [] }])
    ∧ n.cacheKey = (n.callId, sortedScopes n.securityScopes)
    ∧ (n.cacheKey = m.cacheKey ↔
        n.callId = m.callId ∧
        n.securityScopes.toFinset = m.securityScopes.toFinset) := by
  refine ⟨?_, ?_, rfl, ?_⟩
  · intro node hnode
    have hs1 : scopes ⊆
        (if d.isSecurity = true then scopes ++ d.declScopes else scopes) := by
      by_cases hsec : d.isSecurity = true
      · simp only [if_pos hsec]
        exact List.subset_append_left scopes d.declScopes
      · simp only [if_neg hsec]
        exact List.Subset.refl scopes
    have hmain := (build_scopes_spec d.dependency (some nm)
      (if d.isSecurity = true then scopes ++ d.declScopes else scopes) d.useCache).1
    rw [allNodesNode_unfold, (get_sub_dependant_proj nm d scopes).2.1] at hnode
    rcases List.mem_cons.mp hnode with rfl | hmem
    · rw [(get_sub_dependant_proj nm d scopes).1]
      exact hs1
    · refine List.Subset.trans hs1 (hmain node ?_)
      rw [(get_dependant_proj d.dependency (some nm)
        (if d.isSecurity = true then scopes ++ d.declScopes else scopes) d.useCache).2.1] at hmem
      rw [allNodesNode_unfold, (get_dependant_proj d.dependency (some nm)
        (if d.isSecurity = true then scopes ++ d.declScopes else scopes) d.useCache).2.1]
      exact List.mem_cons_of_mem _ hmem
  · intro hsec
    rw [get_sub_dependant]
    simp [hsec, get_dependant_no_secreqs]
  · constructor
    · intro h
      have h1 := congrArg Prod.fst h
      have h2 := congrArg Prod.snd h
      simp only [DepNode.cacheKey] at h1 h2
      refine ⟨h1, ?_⟩
      have := congrArg List.toFinset h2
      simpa [sortedScopes, Finset.sort_toFinset] using this
    · intro ⟨h1, h2⟩
      simp only [DepNode.cacheKey, sortedScopes, h1, h2]

/-- Witness for C7 at concrete inputs: a `Security(scheme, scopes=["read"])`
call site under parent scopes `["parent"]`: the child's scope set
accumulates both, the requirement record carries `[]`, and two nodes with
the same callable and scope set (in different orders, with duplicates) are
cache-equivalent while differing scope sets are cache-distinct. -/
theorem c7_witness :
    ((get_sub_dependant "s"
        (DependsDecl.mk true ["read"] true (CallDecl.mk 9 .plainAsync true []))
        ["parent"]).1.securityScopes = ["parent", "read"]) ∧
    ((CallDecl.mk 9 .plainAsync true []).isSecurityBase = true ∧
      (get_sub_dependant "s"
        (DependsDecl.mk true ["read"] true (CallDecl.mk 9 .plainAsync true []))
        ["parent"]).1.securityRequirements
        = [{ schemeCallId := 9, scopes := [] }]) ∧
    (mkDep (some "a") 5 .plainAsync true []
        : DepNode).cacheKey = (5, sortedScopes []) ∧
    ((mkDep (some "a") 5 .plainAsync true []).cacheKey
        = (mkDep (some "b") 5 .plainAsync false []).cacheKey ↔
      (5 : Nat) = 5 ∧ (([] : List String).toFinset = ([] : List String).toFinset)) := by
  refine ⟨?_, ⟨rfl, ?_⟩, ?_, ?_⟩
  · simp [get_sub_dependant, get_dependant, buildParams, DependsDecl.isSecurity,
      DependsDecl.declScopes, DependsDecl.dependency, DependsDecl.useCache,
      CallDecl.params]
  · exact (c7_scopes_and_cache_keys "s"
      (DependsDecl.mk true ["read"] true (CallDecl.mk 9 .plainAsync true []))
      ["parent"] (mkDep none 0 .plainAsync true [])
      (mkDep none 0 .plainAsync true [])).2.1 rfl
  · exact (c7_scopes_and_cache_keys "s"
      (DependsDecl.mk true ["read"] true (CallDecl.mk 9 .plainAsync true []))
      [] (mkDep (some "a") 5 .plainAsync true [])
      (mkDep (some "b") 5 .plainAsync false [])).2.2.1
  · exact (c7_scopes_and_cache_keys "s"
      (DependsDecl.mk true ["read"] true (CallDecl.mk 9 .plainAsync true []))
      [] (mkDep (some "a") 5 .plainAsync true [])
      (mkDep (some "b") 5 .plainAsync false [])).2.2.2

/-- Invocation counts add over trace concatenation. -/
theorem invokeCount_append (c : Nat) (tr dt : List Event) :
    invokeCount c (tr ++ dt) = invokeCount c tr + invokeCount c dt := by
  simp [invokeCount, List.countP_append]

/-- Acquisitions add over trace concatenation. -/
theorem acquiresOf_append (tr dt : List Event) :
    acquiresOf (tr ++ dt) = acquiresOf tr ++ acquiresOf dt := by
  simp [acquiresOf, List.filterMap_append]

/-- Teardowns add over trace concatenation. -/
theorem teardownsOf_append (tr dt : List Event) :
    teardownsOf (tr ++ dt) = teardownsOf tr ++ teardownsOf dt := by
  simp [teardownsOf, List.filterMap_append]

/-- A cache binding survives appending entries (the solver never overwrites
an existing key). -/
theorem cacheGet_append_of_some (c1 c2 : List ((Nat × List String) × Value))
    (k : Nat × List String) (v : Value) (h : cacheGet c1 k = some v) :
    cacheGet (c1 ++ c2) k = some v := by
  unfold cacheGet at h ⊢
  cases hf : List.find? (fun kv => kv.1 = k) c1 with
  | none => rw [hf] at h; cases h
  | some kv =>
    rw [hf] at h
    rw [List.find?_append, hf]
    exact h

/-- `Extends` is reflexive. -/
theorem Extends.refl (st : SolveSt) : Extends st st :=
  ⟨⟨[], by simp⟩, fun h => h, fun _ _ h => h⟩

/-- `Extends` is transitive. -/
theorem Extends.trans {a b c : SolveSt} (h1 : Extends a b) (h2 : Extends b c) :
    Extends a c := by
  obtain ⟨⟨d1, hd1⟩, hi1, hc1⟩ := h1
  obtain ⟨⟨d2, hd2⟩, hi2, hc2⟩ := h2
  exact ⟨⟨d1 ++ d2, by rw [hd2, hd1, List.append_assoc]⟩,
    fun h => hi2 (hi1 h), fun k v h => hc2 k v (hc1 k v h)⟩

/-- The cache-or-invoke step: a fault leaves the state untouched, a success
extends it. -/
theorem invokeStep_spec (env : Env) (c : DepNode) (st1 : SolveSt) :
    (∀ f st2, invokeStep env c st1 = .error (f, st2) → st2 = st1) ∧
    (∀ v st2, invokeStep env c st1 = .ok (v, st2) → Extends st1 st2) := by
  unfold invokeStep
  cases hc : (if c.useCache then cacheGet st1.cache c.cacheKey else none) with
  | some v0 =>
    refine ⟨(fun f st2 h => nomatch h), fun v st2 h => ?_⟩
    rw [Except.ok.injEq, Prod.mk.injEq] at h
    rw [← h.2]
    exact Extends.refl st1
  | none =>
    cases hk : c.kind
    · -- plainAsync: invoke event appended
      refine ⟨(fun f st2 h => nomatch h), fun v st2 h => ?_⟩
      rw [Except.ok.injEq, Prod.mk.injEq] at h
      rw [← h.2]
      refine ⟨⟨[Event.invoke c.callId (env.impl c.callId (invokeCount c.callId st1.trace))],
        rfl⟩, ?_, fun k v h => h⟩
      intro hInv
      obtain ⟨hstk, hser, hnd, htd⟩ := hInv
      refine ⟨?_, ?_, hnd, ?_⟩
      · rw [acquiresOf_append, hstk]
        simp [acquiresOf]
      · intro p hp
        rw [invokeCount_append]
        exact Nat.lt_of_lt_of_le (hser p hp) (Nat.le_add_right _ _)
      · rw [teardownsOf_append, htd]
        simp [teardownsOf]
    · -- asyncGen: invoke + acquire appended, stack pushed
      refine ⟨(fun f st2 h => nomatch h), fun v st2 h => ?_⟩
      rw [Except.ok.injEq, Prod.mk.injEq] at h
      rw [← h.2]
      refine ⟨⟨[Event.invoke c.callId (env.impl c.callId (invokeCount c.callId st1.trace)),
        Event.acquire c.callId (invokeCount c.callId st1.trace)], rfl⟩, ?_, fun k v h => h⟩
      intro hInv
      obtain ⟨hstk, hser, hnd, htd⟩ := hInv
      have hone : invokeCount c.callId
          [Event.invoke c.callId (env.impl c.callId (invokeCount c.callId st1.trace)),
           Event.acquire c.callId (invokeCount c.callId st1.trace)] = 1 := by
        simp [invokeCount]
      have hnotmem : (c.callId, invokeCount c.callId st1.trace) ∉ st1.stack := by
        intro hmem
        have := hser _ hmem
        simp at this
      refine ⟨?_, ?_, ?_, ?_⟩
      · rw [acquiresOf_append, hstk]
        simp [acquiresOf]
      · intro p hp
        rcases List.mem_append.mp hp with hold | hnew
        · rw [invokeCount_append]
          exact Nat.lt_of_lt_of_le (hser p hold) (Nat.le_add_right _ _)
        · simp only [List.mem_singleton] at hnew
          subst hnew
          simp only [invokeCount_append, hone]
          omega
      · rw [List.nodup_append]
        exact ⟨hnd, List.nodup_singleton _, by
          intro p hp hq
          simp only [List.mem_singleton] at hq
          subst hq
          exact hnotmem hp⟩
      · rw [teardownsOf_append, htd]
        simp [teardownsOf]
    · -- syncGen: fault, state untouched
      refine ⟨fun f st2 h => ?_, fun v st2 h => nomatch h⟩
      rw [Except.error.injEq, Prod.mk.injEq] at h
      exact h.2.symm
    · -- notAsync: fault, state untouched
      refine ⟨fun f st2 h => ?_, fun v st2 h => nomatch h⟩
      rw [Except.error.injEq, Prod.mk.injEq] at h
      exact h.2.symm

/-- Appending an observe event preserves the state invariant. -/
theorem stinv_observe (st : SolveSt) (cid : Nat) (v : Value) (h : StInv st) :
    StInv { st with trace := st.trace ++ [Event.observe cid v] } := by
  obtain ⟨h1, h2, h3, h4⟩ := h
  refine ⟨?_, ?_, h3, ?_⟩
  · rw [acquiresOf_append]
    simpa [acquiresOf] using h1
  · intro p hp
    rw [invokeCount_append]
    exact Nat.lt_of_lt_of_le (h2 p hp) (Nat.le_add_right _ _)
  · rw [teardownsOf_append, h4]
    simp [teardownsOf]

/-- Binding and caching a solved value extends the state and leaves the
exit stack untouched. -/
theorem bindStep_spec (c : DepNode) (solved : Value) (st2 : SolveSt) :
    Extends st2 (bindStep c solved st2) ∧
    (bindStep c solved st2).stack = st2.stack := by
  unfold bindStep
  cases hn : c.name with
  | none =>
    by_cases hcc : (cacheGet st2.cache c.cacheKey).isSome
    · rw [if_pos hcc]
      exact ⟨Extends.refl st2, rfl⟩
    · rw [if_neg hcc]
      exact ⟨⟨⟨[], by simp⟩, fun h => h,
        fun k v h => cacheGet_append_of_some _ _ _ _ h⟩, rfl⟩
  | some nm =>
    by_cases hcc : (cacheGet st2.cache c.cacheKey).isSome
    · rw [if_pos hcc]
      exact ⟨⟨⟨[Event.observe c.callId solved], rfl⟩,
        stinv_observe st2 c.callId solved, fun k v h => h⟩, rfl⟩
    · rw [if_neg hcc]
      exact ⟨⟨⟨[Event.observe c.callId solved], rfl⟩,
        stinv_observe st2 c.callId solved,
        fun k v h => cacheGet_append_of_some _ _ _ _ h⟩, rfl⟩

/-- Both solver functions extend the state — on success and on fault: the
trace grows by appending, the invariant is preserved, existing cache
entries survive. -/
theorem solve_extends (env : Env) (req : Req) (body : Option Value) :
    ∀ (cs : List DepNode) (st : SolveSt),
      (∀ f st2, solveChildren env req body cs st = .error (f, st2) → Extends st st2) ∧
      (∀ vals errs st2, solveChildren env req body cs st = .ok (vals, errs, st2) →
        Extends st st2) := by
  refine solveChildren.induct env req body
    (fun d st =>
      (∀ f st2, solveDeps env req body d st = .error (f, st2) → Extends st st2) ∧
      (∀ r st2, solveDeps env req body d st = .ok (r, st2) → Extends st st2))
    (fun cs st =>
      (∀ f st2, solveChildren env req body cs st = .error (f, st2) → Extends st st2) ∧
      (∀ vals errs st2, solveChildren env req body cs st = .ok (vals, errs, st2) →
        Extends st st2))
    ?_ ?_ ?_ ?_ ?_ ?_ ?_ ?_ ?_
  · intro d st e hch ih
    constructor
    · intro f st2 h
      rw [solveDeps, hch] at h
      rw [Except.error.injEq] at h
      exact ih.1 f st2 (by rw [hch, ← h])
    · intro r st2 h
      rw [solveDeps, hch] at h
      cases h
  · intro d st values errors st1 hch ih
    constructor
    · intro f st2 h
      rw [solveDeps, hch] at h
      cases h
    · intro r st2 h
      rw [solveDeps, hch] at h
      rw [Except.ok.injEq, Prod.mk.injEq] at h
      rw [← h.2]
      exact ih.2 values errors st1 hch
  · intro st
    constructor
    · intro f st2 h
      rw [solveChildren] at h
      cases h
    · intro vals errs st2 h
      rw [solveChildren] at h
      rw [Except.ok.injEq, Prod.mk.injEq, Prod.mk.injEq] at h
      rw [← h.2.2]
      exact Extends.refl st
  · intro st c rest e hsolve ih
    constructor
    · intro f st2 h
      rw [solveChildren, hsolve] at h
      rw [Except.error.injEq] at h
      exact ih.1 f st2 (by rw [hsolve, ← h])
    · intro vals errs st2 h
      rw [solveChildren, hsolve] at h
      cases h
  · intro st c rest solvedRes st1 hsolve hemp e hinv ih
    have he1 : Extends st st1 := ih.2 solvedRes st1 hsolve
    constructor
    · intro f st2 h
      rw [solveChildren, hsolve] at h
      simp only [hemp, if_true, hinv] at h
      rw [Except.error.injEq] at h
      have hst : st2 = st1 := by
        have := (invokeStep_spec env c st1).1 f st2 (by rw [hinv, ← h])
        exact this
      rw [hst]
      exact he1
    · intro vals errs st2 h
      rw [solveChildren, hsolve] at h
      simp only [hemp, if_true, hinv] at h
      cases h
  · intro st c rest solvedRes st1 hsolve hemp solved st2 hinv e hrest ih1 ih2
    have hchain : Extends st (bindStep c solved st2) :=
      Extends.trans (ih1.2 solvedRes st1 hsolve)
        (Extends.trans ((invokeStep_spec env c st1).2 solved st2 hinv)
          (bindStep_spec c solved st2).1)
    constructor
    · intro f st3 h
      rw [solveChildren, hsolve] at h
      simp only [hemp, if_true, hinv, hrest] at h
      rw [Except.error.injEq] at h
      exact Extends.trans hchain (ih2.1 f st3 (by rw [hrest, ← h]))
    · intro vals errs st3 h
      rw [solveChildren, hsolve] at h
      simp only [hemp, if_true, hinv, hrest] at h
      cases h
  · intro st c rest solvedRes st1 hsolve hemp solved st2 hinv values errors st5
      hrest ih1 ih2
    have hchain : Extends st (bindStep c solved st2) :=
      Extends.trans (ih1.2 solvedRes st1 hsolve)
        (Extends.trans ((invokeStep_spec env c st1).2 solved st2 hinv)
          (bindStep_spec c solved st2).1)
    constructor
    · intro f st3 h
      rw [solveChildren, hsolve] at h
      simp only [hemp, if_true, hinv, hrest] at h
      cases h
    · intro vals errs st3 h
      rw [solveChildren, hsolve] at h
      simp only [hemp, if_true, hinv, hrest] at h
      rw [Except.ok.injEq, Prod.mk.injEq] at h
      have hst : st3 = st5 := by
        have h22 := h.2
        rw [Prod.mk.injEq] at h22
        exact h22.2.symm
      rw [hst]
      exact Extends.trans hchain (ih2.2 values errors st5 hrest)
  · intro st c rest solvedRes st1 hsolve hemp e hrest ih1 ih2
    constructor
    · intro f st2 h
      rw [solveChildren, hsolve] at h
      simp only [if_neg hemp, hrest] at h
      rw [Except.error.injEq] at h
      exact Extends.trans (ih1.2 solvedRes st1 hsolve)
        (ih2.1 f st2 (by rw [hrest, ← h]))
    · intro vals errs st2 h
      rw [solveChildren, hsolve] at h
      simp only [if_neg hemp, hrest] at h
      cases h
  · intro st c rest solvedRes st1 hsolve hemp values errors st2 hrest ih1 ih2
    constructor
    · intro f st3 h
      rw [solveChildren, hsolve] at h
      simp only [if_neg hemp, hrest] at h
      cases h
    · intro vals errs st3 h
      rw [solveChildren, hsolve] at h
      simp only [if_neg hemp, hrest] at h
      rw [Except.ok.injEq, Prod.mk.injEq] at h
      have hst : st3 = st2 := by
        have h22 := h.2
        rw [Prod.mk.injEq] at h22
        exact h22.2.symm
      rw [hst]
      exact Extends.trans (ih1.2 solvedRes st1 hsolve)
        (ih2.2 values errors st2 hrest)

/-- `solve_dependencies` extends the state, at the node level. -/
theorem solveDeps_extends (env : Env) (req : Req) (body : Option Value)
    (d : DepNode) (st : SolveSt) :
    (∀ f st2, solveDeps env req body d st = .error (f, st2) → Extends st st2) ∧
    (∀ r st2, solveDeps env req body d st = .ok (r, st2) → Extends st st2) := by
  have h := solve_extends env req body d.children st
  cases hch : solveChildren env req body d.children st with
  | error e =>
    obtain ⟨f0, st0⟩ := e
    constructor
    · intro f st2 hh
      rw [solveDeps, hch] at hh
      rw [Except.error.injEq, Prod.mk.injEq] at hh
      rw [← hh.2]
      exact h.1 f0 st0 hch
    · intro r st2 hh
      rw [solveDeps, hch] at hh
      cases hh
  | ok t =>
    obtain ⟨vals, errs, st0⟩ := t
    constructor
    · intro f st2 hh
      rw [solveDeps, hch] at hh
      cases hh
    · intro r st2 hh
      rw [solveDeps, hch] at hh
      rw [Except.ok.injEq, Prod.mk.injEq] at hh
      rw [← hh.2]
      exact h.2 vals errs st0 hch

/-- Teardown events decode back to their pairs. -/
theorem teardownsOf_map (l : List (Nat × Nat)) :
    teardownsOf (l.map (fun p => Event.teardown p.1 p.2)) = l := by
  induction l with
  | nil => rfl
  | cons p ps ih =>
    rw [List.map_cons, teardownsOf, List.filterMap_cons]
    rw [teardownsOf] at ih
    simp [ih]

/-- Teardown events contain no acquisitions. -/
theorem acquiresOf_tdmap (l : List (Nat × Nat)) :
    acquiresOf (l.map (fun p => Event.teardown p.1 p.2)) = [] := by
  induction l with
  | nil => rfl
  | cons p ps ih =>
    rw [List.map_cons, acquiresOf, List.filterMap_cons]
    rw [acquiresOf] at ih
    simp only [ih]

/-- The teardown block releases exactly the recorded stack, in reverse
order, and performs no acquisitions. -/
theorem teardownEvents_spec (stack : List (Nat × Nat)) :
    teardownsOf (teardownEvents stack) = stack.reverse ∧
    acquiresOf (teardownEvents stack) = [] := by
  rw [teardownEvents]
  exact ⟨teardownsOf_map stack.reverse, acquiresOf_tdmap stack.reverse⟩

/-- The request cycle always exits through the exit stack: the events of
one `handleCore` run are a solver trace satisfying the state invariant,
followed by that state's teardown block. -/
theorem handleCore_exit (env : Env) (route : RouteM) (req : Req)
    (body : Option Value) :
    ∃ st : SolveSt, StInv st ∧
      (handleCore env route req body).2 = st.trace ++ teardownEvents st.stack := by
  have hInv0 : StInv { cache := [], stack := [], trace := [] } :=
    ⟨rfl, by simp, List.nodup_nil, rfl⟩
  cases hres : solveDeps env req body route.dependant
      { cache := [], stack := [], trace := [] } with
  | error e =>
    obtain ⟨f, st⟩ := e
    refine ⟨st, ?_, ?_⟩
    · exact ((solveDeps_extends env req body route.dependant _).1 f st hres).2.1 hInv0
    · rw [handleCore, hres]
  | ok t =>
    obtain ⟨solved, st⟩ := t
    refine ⟨st,
      ((solveDeps_extends env req body route.dependant _).2 solved st hres).2.1 hInv0, ?_⟩
    rw [handleCore, hres]
    by_cases herr : solved.errors.isEmpty
    · simp only [herr, if_true]
      repeat' split
      all_goals rfl
    · simp only [herr, if_false]
      rfl

/-- C3: for every request cycle, on every exit path — success, aggregated
validation failure, dependency fault or endpoint exception — the teardowns
of the run are exactly the acquisitions in reverse-acquisition order, and
the acquisitions are pairwise distinct, so each acquired cleanup-bearing
dependency is torn down exactly once, at request-cycle exit. -/
theorem c3_teardown_exactly_once (env : Env) (route : RouteM) (req : Req)
    (pp : List (String × Value)) (raw : String) :
    teardownsOf (handle env route req pp raw).2
      = (acquiresOf (handle env route req pp raw).2).reverse ∧
    (acquiresOf (handle env route req pp raw).2).Nodup := by
  rw [handle]
  obtain ⟨st, ⟨hstk, hser, hnd, htd⟩, htr⟩ := handleCore_exit env route
    { req with pathParams := pp.map (fun kv => (kv.1, Value.vStr (pyStr kv.2))) }
    (parseBody env req.method raw)
  constructor
  · rw [htr, teardownsOf_append, acquiresOf_append, htd,
      (teardownEvents_spec st.stack).1, (teardownEvents_spec st.stack).2, ← hstk]
    simp
  · rw [htr, acquiresOf_append, (teardownEvents_spec st.stack).2, ← hstk]
    simpa using hnd

/-- With only plain (non-model) fields, extraction errors are the
concatenation of the per-field errors, in field order. -/
theorem extract_plain_errors (fields : List ModelField)
    (src : List (String × Value)) (h : ∀ g ∈ fields, g.isBaseModel = false) :
    (extract_params_from_dict fields src).2
      = fields.flatMap (fun g => (fieldOutcome g src).2) := by
  match fields, h with
  | [], _ => simp [extract_params_from_dict]
  | g :: gs, h =>
    have hg : g.isBaseModel = false := h g (by simp)
    simp only [extract_params_from_dict, hg]
    rw [if_neg (by simp [hg])]
    exact perField_errors_decomp src (g :: gs) ([], [])

/-- With embedded body fields, body extraction errors are the concatenation
of the per-field errors, in field order. -/
theorem extract_body_embedded_errors (fields : List ModelField)
    (body : Option Value) (hne : fields ≠ [])
    (hembed : should_embed_body_fields fields = true) :
    (extract_body_params fields body).2
      = fields.flatMap (fun g => (bodyFieldOutcome g body).2) := by
  match fields, hne with
  | g :: gs, _ =>
    simp only [extract_body_params, hembed]
    rw [if_neg (by simp [hembed])]
    exact bodyField_errors_decomp body (g :: gs) ([], [])

/-- Per-field errors carry the field's category and alias as the first two
components of their location tuple. -/
theorem fieldOutcome_loc (f : ModelField) (src : List (String × Value)) :
    ∀ e ∈ (fieldOutcome f src).2, e.loc.take 2 = [f.paramIn.value, f.aliasName] := by
  intro e he
  rw [fieldOutcome] at he
  cases hlook : fieldLookup f src with
  | none =>
    rw [hlook] at he
    rw [validate_value_with_model_field] at he
    by_cases hreq : f.required
    · rw [if_pos hreq] at he
      simp only [List.mem_singleton] at he
      subst he
      rfl
    · rw [if_neg hreq] at he
      simp at he
  | some v =>
    rw [hlook] at he
    rw [validate_value_with_model_field] at he
    cases hval : f.validate v with
    | inl ok => rw [hval] at he; simp at he
    | inr errs =>
      rw [hval] at he
      simp only [List.mem_map] at he
      obtain ⟨e0, _, rfl⟩ := he
      rfl

/-- Embedded body per-field errors carry `("body", alias)` as the first two
components of their location tuple. -/
theorem bodyFieldOutcome_loc (f : ModelField) (body : Option Value) :
    ∀ e ∈ (bodyFieldOutcome f body).2, e.loc.take 2 = ["body", f.aliasName] := by
  intro e he
  cases body with
  | none =>
    rw [bodyFieldOutcome, validate_value_with_model_field] at he
    by_cases hreq : f.required
    · rw [if_pos hreq] at he
      simp only [List.mem_singleton] at he
      subst he
      rfl
    · rw [if_neg hreq] at he
      simp at he
  | some bv =>
    cases bv with
    | vObj kvs =>
      rw [bodyFieldOutcome] at he
      cases hlook : pyGet kvs f.aliasName with
      | none =>
        rw [hlook, validate_value_with_model_field] at he
        by_cases hreq : f.required
        · rw [if_pos hreq] at he
          simp only [List.mem_singleton] at he
          subst he
          rfl
        · rw [if_neg hreq] at he
          simp at he
      | some v =>
        rw [hlook, validate_value_with_model_field] at he
        cases hval : f.validate v with
        | inl ok => rw [hval] at he; simp at he
        | inr errs =>
          rw [hval] at he
          simp only [List.mem_map] at he
          obtain ⟨e0, _, rfl⟩ := he
          rfl
    | vNull => simp only [bodyFieldOutcome, List.mem_singleton] at he; subst he; rfl
    | vBool b => simp only [bodyFieldOutcome, List.mem_singleton] at he; subst he; rfl
    | vInt n => simp only [bodyFieldOutcome, List.mem_singleton] at he; subst he; rfl
    | vStr s => simp only [bodyFieldOutcome, List.mem_singleton] at he; subst he; rfl
    | vArr l => simp only [bodyFieldOutcome, List.mem_singleton] at he; subst he; rfl

/-- When each element contributes at most one item, the flattened list has
exactly one item per contributing element. -/
theorem flatMap_length_le_one {α β : Type} (l : List α) (g : α → List β)
    (h : ∀ a ∈ l, (g a).length ≤ 1) :
    (l.flatMap g).length = (l.filter (fun a => !(g a).isEmpty)).length := by
  induction l with
  | nil => rfl
  | cons a as ih =>
    have ha := h a (by simp)
    have hrest := ih (fun x hx => h x (by simp [hx]))
    rw [List.flatMap_cons, List.length_append, hrest, List.filter_cons]
    cases hga : g a with
    | nil => simp [hga]
    | cons b bs =>
      rw [hga] at ha
      simp only [List.length_cons] at ha
      have : bs = [] := List.eq_nil_of_length_eq_zero (by omega)
      subst this
      simp [hga]
      omega

/-- The errors of a node's own extraction, in group order: children's
errors first, then path, query, header and body errors. -/
theorem extractOwn_errors (req : Req) (body : Option Value) (d : DepNode)
    (values : List (String × Value)) (errors : List ErrItem) :
    (extractOwn req body d values errors).errors
      = errors ++ (extract_params_from_dict d.pathFields req.pathParams).2
        ++ (extract_params_from_dict d.queryFields req.queryParams).2
        ++ (extract_params_from_dict d.headerFields req.headers).2
        ++ (if d.bodyFields.isEmpty then []
            else (extract_body_params d.bodyFields body).2) := by
  unfold extractOwn
  by_cases hb : d.bodyFields.isEmpty
  · simp [hb]
  · simp [hb]

/-- C2: a flat dispatch evaluates every declared field: the solver on a
childless node returns exactly the extraction outcome, whose error list is
the concatenation over all four locations of the per-field errors — each
tagged with the field's (category, alias) location — so N independently
failing single-error fields yield exactly N errors; a child dependant
whose own resolution produced errors has those errors appended while its
callable is skipped and the remaining siblings are still resolved; and
`Route.handle` raises the collected errors together as one
`RequestValidationError`, which the application layer returns as the
single structured 422 response carrying all of them. -/
theorem c2_error_aggregation (env : Env) (req : Req) (body : Option Value)
    (d : DepNode) (st : SolveSt) (f : ModelField) (src : List (String × Value))
    (l : List ModelField) (c : DepNode) (rest : List DepNode) (res : Solved)
    (st1 : SolveSt) (route : RouteM) (routes : List RouteM) (raw : String)
    (tr : List Event) (errs0 : List ErrItem) :
    (d.children = [] →
      solveDeps env req body d st = .ok (extractOwn req body d [] [], st))
    ∧ ((∀ g ∈ d.pathFields, g.isBaseModel = false) →
        (∀ g ∈ d.queryFields, g.isBaseModel = false) →
        (∀ g ∈ d.headerFields, g.isBaseModel = false) →
        (d.bodyFields = [] ∨ should_embed_body_fields d.bodyFields = true) →
        (extractOwn req body d [] []).errors
          = d.pathFields.flatMap (fun g => (fieldOutcome g req.pathParams).2)
            ++ d.queryFields.flatMap (fun g => (fieldOutcome g req.queryParams).2)
            ++ d.headerFields.flatMap (fun g => (fieldOutcome g req.headers).2)
            ++ d.bodyFields.flatMap (fun g => (bodyFieldOutcome g body).2))
    ∧ (∀ e ∈ (fieldOutcome f src).2, e.loc.take 2 = [f.paramIn.value, f.aliasName])
    ∧ (∀ e ∈ (bodyFieldOutcome f body).2, e.loc.take 2 = ["body", f.aliasName])
    ∧ ((∀ g ∈ l, ((fieldOutcome g src).2).length ≤ 1) →
        (l.flatMap (fun g => (fieldOutcome g src).2)).length
          = (l.filter (fun g => !((fieldOutcome g src).2).isEmpty)).length)
    ∧ (solveDeps env req body c st = .ok (res, st1) → res.errors ≠ [] →
        solveChildren env req body (c :: rest) st
          = (match solveChildren env req body rest st1 with
             | .error e => .error e
             | .ok (vals, errs, st2) => .ok (vals, res.errors ++ errs, st2)))
    ∧ (solveDeps env req body route.dependant
          { cache := [], stack := [], trace := [] } = .ok (res, st1) →
        res.errors ≠ [] →
        handleCore env route req body
          = (.error (.validationFailure res.errors),
             st1.trace ++ teardownEvents st1.stack))
    ∧ (routeDispatch env routes req raw = (.error (.validationFailure errs0), tr) →
        appDispatch env routes req raw
          = { status := 422, content := errorsContent errs0 }) := by
  refine ⟨?_, ?_, fieldOutcome_loc f src, bodyFieldOutcome_loc f body,
    flatMap_length_le_one l _, ?_, ?_, ?_⟩
  · intro hch
    rw [solveDeps, hch, solveChildren]
  · intro hpath hquery hheader hbody
    rw [extractOwn_errors]
    rw [extract_plain_errors d.pathFields req.pathParams hpath,
      extract_plain_errors d.queryFields req.queryParams hquery,
      extract_plain_errors d.headerFields req.headers hheader]
    rcases hbody with hb | hb
    · simp [hb]
    · have hne : d.bodyFields ≠ [] := by
        intro hnil
        rw [hnil] at hb
        simp [should_embed_body_fields] at hb
      rw [extract_body_embedded_errors d.bodyFields body hne hb]
      simp [List.isEmpty_iff, hne]
  · intro hsolve hne
    have hemp : ¬res.errors.isEmpty = true := by
      simp [List.isEmpty_iff, hne]
    rw [solveChildren, hsolve]
    simp only [if_neg hemp]
  · intro hsolve hne
    have hemp : res.errors.isEmpty = false := by
      cases hres : res.errors
      · exact absurd hres hne
      · rfl
    simp [handleCore, hsolve, hemp]
  · intro hdis
    rw [appDispatch, hdis]

/-- Witness for C2 at concrete inputs: four independently invalid fields —
a missing required query field, a query field rejected by its validator,
and two missing required embedded body fields — produce exactly four
errors, at their four location tuples, in one resolution, and dispatching
the route returns the single structured 422 response carrying all four. -/
theorem c2_witness :
    (mkFieldsDep []
          [mkField "q" "q" ParamIn.query true Value.vNull acceptAll,
           mkField "limit" "limit" ParamIn.query false (Value.vInt 10) rejectAll]
          []
          [mkField "a" "a" ParamIn.body true Value.vNull acceptAll,
           mkField "b" "b" ParamIn.body true Value.vNull acceptAll]).children = [] ∧
    solveDeps counterEnv
        { method := "GET", path := "/", pathParams := [], queryParams := [("limit", Value.vStr "x")], headers := [] }
        none
        (mkFieldsDep []
          [mkField "q" "q" ParamIn.query true Value.vNull acceptAll,
           mkField "limit" "limit" ParamIn.query false (Value.vInt 10) rejectAll]
          []
          [mkField "a" "a" ParamIn.body true Value.vNull acceptAll,
           mkField "b" "b" ParamIn.body true Value.vNull acceptAll])
        { cache := [], stack := [], trace := [] }
      = .ok ({ values := [],
               errors := [missingFieldError ["query", "q"],
           { typ := "value_error", loc := ["query", "limit"] },
           missingFieldError ["body", "a"],
           missingFieldError ["body", "b"]] },
             { cache := [], stack := [], trace := [] }) ∧
    appDispatch counterEnv
        [(⟨[PatPart.lit "/".toList], ["GET"],
          (mkFieldsDep []
          [mkField "q" "q" ParamIn.query true Value.vNull acceptAll,
           mkField "limit" "limit" ParamIn.query false (Value.vInt 10) rejectAll]
          []
          [mkField "a" "a" ParamIn.body true Value.vNull acceptAll,
           mkField "b" "b" ParamIn.body true Value.vNull acceptAll]),
          fun _ => Except.ok (EndpointResult.val Value.vNull), none⟩ : RouteM)]
        { method := "GET", path := "/", pathParams := [], queryParams := [("limit", Value.vStr "x")], headers := [] } ""
      = { status := 422,
          content := errorsContent
            [missingFieldError ["query", "q"],
           { typ := "value_error", loc := ["query", "limit"] },
           missingFieldError ["body", "a"],
           missingFieldError ["body", "b"]] } := by
  have h := (c2_error_aggregation counterEnv
    { method := "GET", path := "/", pathParams := [], queryParams := [("limit", Value.vStr "x")], headers := [] }
    none
    (mkFieldsDep []
          [mkField "q" "q" ParamIn.query true Value.vNull acceptAll,
           mkField "limit" "limit" ParamIn.query false (Value.vInt 10) rejectAll]
          []
          [mkField "a" "a" ParamIn.body true Value.vNull acceptAll,
           mkField "b" "b" ParamIn.body true Value.vNull acceptAll])
    { cache := [], stack := [], trace := [] }
    (mkField "q" "q" ParamIn.query true Value.vNull acceptAll) [] []
    (mkFieldsDep [] [] [] []) [] { values := [], errors := [] }
    { cache := [], stack := [], trace := [] }
    (⟨[PatPart.lit "/".toList], ["GET"],
          (mkFieldsDep []
          [mkField "q" "q" ParamIn.query true Value.vNull acceptAll,
           mkField "limit" "limit" ParamIn.query false (Value.vInt 10) rejectAll]
          []
          [mkField "a" "a" ParamIn.body true Value.vNull acceptAll,
           mkField "b" "b" ParamIn.body true Value.vNull acceptAll]),
          fun _ => Except.ok (EndpointResult.val Value.vNull), none⟩ : RouteM) [] "" [] []).1 rfl
  have hsolve : solveDeps counterEnv
      { method := "GET", path := "/", pathParams := [], queryParams := [("limit", Value.vStr "x")], headers := [] }
      none
      (mkFieldsDep []
          [mkField "q" "q" ParamIn.query true Value.vNull acceptAll,
           mkField "limit" "limit" ParamIn.query false (Value.vInt 10) rejectAll]
          []
          [mkField "a" "a" ParamIn.body true Value.vNull acceptAll,
           mkField "b" "b" ParamIn.body true Value.vNull acceptAll])
      { cache := [], stack := [], trace := [] }
    = .ok ({ values := [],
             errors := [missingFieldError ["query", "q"],
           { typ := "value_error", loc := ["query", "limit"] },
           missingFieldError ["body", "a"],
           missingFieldError ["body", "b"]] },
           { cache := [], stack := [], trace := [] }) := by
    rw [h]
    exact congrArg (fun x => Except.ok x) (by decide)
  refine ⟨rfl, hsolve, ?_⟩
  have hhc := (c2_error_aggregation counterEnv
    { method := "GET", path := "/", pathParams := [], queryParams := [("limit", Value.vStr "x")], headers := [] }
    none
    (mkFieldsDep []
          [mkField "q" "q" ParamIn.query true Value.vNull acceptAll,
           mkField "limit" "limit" ParamIn.query false (Value.vInt 10) rejectAll]
          []
          [mkField "a" "a" ParamIn.body true Value.vNull acceptAll,
           mkField "b" "b" ParamIn.body true Value.vNull acceptAll])
    { cache := [], stack := [], trace := [] }
    (mkField "q" "q" ParamIn.query true Value.vNull acceptAll) [] []
    (mkFieldsDep [] [] [] []) []
    { values := [],
      errors := [missingFieldError ["query", "q"],
           { typ := "value_error", loc := ["query", "limit"] },
           missingFieldError ["body", "a"],
           missingFieldError ["body", "b"]] }
    { cache := [], stack := [], trace := [] }
    (⟨[PatPart.lit "/".toList], ["GET"],
          (mkFieldsDep []
          [mkField "q" "q" ParamIn.query true Value.vNull acceptAll,
           mkField "limit" "limit" ParamIn.query false (Value.vInt 10) rejectAll]
          []
          [mkField "a" "a" ParamIn.body true Value.vNull acceptAll,
           mkField "b" "b" ParamIn.body true Value.vNull acceptAll]),
          fun _ => Except.ok (EndpointResult.val Value.vNull), none⟩ : RouteM)
    [] "" [] []).2.2.2.2.2.2.1 hsolve (List.cons_ne_nil _ _)
  have hup : pyUpper "GET" = "GET" := by decide
  have hmatch : routeMatches
      (⟨[PatPart.lit "/".toList], ["GET"],
          (mkFieldsDep []
          [mkField "q" "q" ParamIn.query true Value.vNull acceptAll,
           mkField "limit" "limit" ParamIn.query false (Value.vInt 10) rejectAll]
          []
          [mkField "a" "a" ParamIn.body true Value.vNull acceptAll,
           mkField "b" "b" ParamIn.body true Value.vNull acceptAll]),
          fun _ => Except.ok (EndpointResult.val Value.vNull), none⟩ : RouteM) "GET" "/" = some [] := by
    simp [routeMatches, matchParts, hup]
  have hdis : routeDispatch counterEnv
      [(⟨[PatPart.lit "/".toList], ["GET"],
          (mkFieldsDep []
          [mkField "q" "q" ParamIn.query true Value.vNull acceptAll,
           mkField "limit" "limit" ParamIn.query false (Value.vInt 10) rejectAll]
          []
          [mkField "a" "a" ParamIn.body true Value.vNull acceptAll,
           mkField "b" "b" ParamIn.body true Value.vNull acceptAll]),
          fun _ => Except.ok (EndpointResult.val Value.vNull), none⟩ : RouteM)]
      { method := "GET", path := "/", pathParams := [], queryParams := [("limit", Value.vStr "x")], headers := [] } ""
      = (.error (.validationFailure
          [missingFieldError ["query", "q"],
           { typ := "value_error", loc := ["query", "limit"] },
           missingFieldError ["body", "a"],
           missingFieldError ["body", "b"]]),
         [] ++ teardownEvents []) := by
    rw [routeDispatch]
    rw [show ({ method := "GET", path := "/", pathParams := [], queryParams := [("limit", Value.vStr "x")], headers := [] } : Req).method = "GET" from rfl]
    rw [show ({ method := "GET", path := "/", pathParams := [], queryParams := [("limit", Value.vStr "x")], headers := [] } : Req).path = "/" from rfl]
    rw [hmatch]
    exact hhc
  exact (c2_error_aggregation counterEnv
    { method := "GET", path := "/", pathParams := [], queryParams := [("limit", Value.vStr "x")], headers := [] }
    none
    (mkFieldsDep []
          [mkField "q" "q" ParamIn.query true Value.vNull acceptAll,
           mkField "limit" "limit" ParamIn.query false (Value.vInt 10) rejectAll]
          []
          [mkField "a" "a" ParamIn.body true Value.vNull acceptAll,
           mkField "b" "b" ParamIn.body true Value.vNull acceptAll])
    { cache := [], stack := [], trace := [] }
    (mkField "q" "q" ParamIn.query true Value.vNull acceptAll) [] []
    (mkFieldsDep [] [] [] []) [] { values := [], errors := [] }
    { cache := [], stack := [], trace := [] }
    (⟨[PatPart.lit "/".toList], ["GET"],
          (mkFieldsDep []
          [mkField "q" "q" ParamIn.query true Value.vNull acceptAll,
           mkField "limit" "limit" ParamIn.query false (Value.vInt 10) rejectAll]
          []
          [mkField "a" "a" ParamIn.body true Value.vNull acceptAll,
           mkField "b" "b" ParamIn.body true Value.vNull acceptAll]),
          fun _ => Except.ok (EndpointResult.val Value.vNull), none⟩ : RouteM)
    [(⟨[PatPart.lit "/".toList], ["GET"],
          (mkFieldsDep []
          [mkField "q" "q" ParamIn.query true Value.vNull acceptAll,
           mkField "limit" "limit" ParamIn.query false (Value.vInt 10) rejectAll]
          []
          [mkField "a" "a" ParamIn.body true Value.vNull acceptAll,
           mkField "b" "b" ParamIn.body true Value.vNull acceptAll]),
          fun _ => Except.ok (EndpointResult.val Value.vNull), none⟩ : RouteM)]
    "" ([] ++ teardownEvents [])
    [missingFieldError ["query", "q"],
           { typ := "value_error", loc := ["query", "limit"] },
           missingFieldError ["body", "a"],
           missingFieldError ["body", "b"]]).2.2.2.2.2.2.2 hdis

/-- C4: a dependency whose callable is a synchronous generator, or is not
an async callable, raises a `RuntimeError` when its invocation is reached
(cache miss after error-free sub-resolution); the fault aborts the whole
resolution, `Route.handle` surfaces it as a dependency fault — never as an
entry of the aggregated validation-error list — and the application layer
turns it into the single generic 500 response. -/
theorem c4_shape_faults (env : Env) (c : DepNode) (st1 : SolveSt) (req : Req)
    (body : Option Value) (rest : List DepNode) (st : SolveSt) (res : Solved)
    (route : RouteM) (routes : List RouteM) (f : Fault) (raw : String)
    (tr : List Event) (stf : SolveSt) :
    (c.kind = .syncGen →
      (if c.useCache then cacheGet st1.cache c.cacheKey else none) = none →
      invokeStep env c st1 = .error (.mustUseAsyncGen c.callId, st1))
    ∧ (c.kind = .notAsync →
      (if c.useCache then cacheGet st1.cache c.cacheKey else none) = none →
      invokeStep env c st1 = .error (.mustBeAsync c.callId, st1))
    ∧ (solveDeps env req body c st = .ok (res, st1) → res.errors = [] →
      invokeStep env c st1 = .error (f, stf) →
      solveChildren env req body (c :: rest) st = .error (f, stf))
    ∧ (solveDeps env req body route.dependant
        { cache := [], stack := [], trace := [] } = .error (f, stf) →
      handleCore env route req body
        = (.error (.depFault f), stf.trace ++ teardownEvents stf.stack))
    ∧ (routeDispatch env routes req raw = (.error (.depFault f), tr) →
      appDispatch env routes req raw = internalErrorResponse)
    ∧ internalErrorResponse
        = { status := 500, content := .vObj [("detail", .vStr "Internal Server Error")] } := by
  refine ⟨?_, ?_, ?_, ?_, ?_, rfl⟩
  · intro hkind hmiss
    rw [invokeStep, hmiss, hkind]
  · intro hkind hmiss
    rw [invokeStep, hmiss, hkind]
  · intro hsolve herr hinv
    have hemp : res.errors.isEmpty = true := by
      rw [herr]
      rfl
    rw [solveChildren, hsolve]
    simp only [hemp, if_true, hinv]
  · intro hsolve
    rw [handleCore, hsolve]
  · intro hdis
    rw [appDispatch, hdis]

/-- Witness for C4 at concrete inputs: a route whose dependant has a
synchronous-generator child; one dispatch faults and the application
returns the generic 500, not a validation response. -/
theorem c4_witness :
    solveDeps counterEnv getReq none
        (mkDep none 0 .plainAsync true [mkDep (some "g") 3 .syncGen true []])
        { cache := [], stack := [], trace := [] }
      = .error (.mustUseAsyncGen 3, { cache := [], stack := [], trace := [] }) ∧
    appDispatch counterEnv
        [⟨[.lit "/health".toList], ["GET"],
          mkDep none 0 .plainAsync true [mkDep (some "g") 3 .syncGen true []],
          fun _ => .ok (.val .vNull), none⟩]
        getReq ""
      = internalErrorResponse := by
  have hup : pyUpper "GET" = "GET" := by decide
  have hsolve : solveDeps counterEnv getReq none
      (mkDep none 0 .plainAsync true [mkDep (some "g") 3 .syncGen true []])
      { cache := [], stack := [], trace := [] }
      = .error (.mustUseAsyncGen 3, { cache := [], stack := [], trace := [] }) := by
    simp [solveDeps, solveChildren, invokeStep, mkDep, cacheGet, extractOwn,
      extract_params_from_dict, dictUpdate]
  refine ⟨hsolve, ?_⟩
  have hhc := (c4_shape_faults counterEnv
    (mkDep (some "g") 3 .syncGen true []) { cache := [], stack := [], trace := [] }
    getReq none [] { cache := [], stack := [], trace := [] }
    { values := [], errors := [] }
    ⟨[.lit "/health".toList], ["GET"],
      mkDep none 0 .plainAsync true [mkDep (some "g") 3 .syncGen true []],
      fun _ => .ok (.val .vNull), none⟩
    [] (.mustUseAsyncGen 3) "" [] { cache := [], stack := [], trace := [] }).2.2.2.1
    hsolve
  have hdis : routeDispatch counterEnv
      [⟨[.lit "/health".toList], ["GET"],
        mkDep none 0 .plainAsync true [mkDep (some "g") 3 .syncGen true []],
        fun _ => .ok (.val .vNull), none⟩]
      getReq ""
      = (.error (.depFault (.mustUseAsyncGen 3)), teardownEvents []) := by
    rw [routeDispatch]
    have hmatch : routeMatches
        ⟨[.lit "/health".toList], ["GET"],
          mkDep none 0 .plainAsync true [mkDep (some "g") 3 .syncGen true []],
          fun _ => .ok (.val .vNull), none⟩ "GET" "/health" = some [] := by
      simp [routeMatches, matchParts, hup]
    rw [show getReq.method = "GET" from rfl, show getReq.path = "/health" from rfl, hmatch]
    exact hhc
  rw [(c4_shape_faults counterEnv
    (mkDep (some "g") 3 .syncGen true []) { cache := [], stack := [], trace := [] }
    getReq none [] { cache := [], stack := [], trace := [] }
    { values := [], errors := [] }
    ⟨[.lit "/health".toList], ["GET"],
      mkDep none 0 .plainAsync true [mkDep (some "g") 3 .syncGen true []],
      fun _ => .ok (.val .vNull), none⟩
    [⟨[.lit "/health".toList], ["GET"],
      mkDep none 0 .plainAsync true [mkDep (some "g") 3 .syncGen true []],
      fun _ => .ok (.val .vNull), none⟩]
    (.mustUseAsyncGen 3) "" (teardownEvents [])
    { cache := [], stack := [], trace := [] }).2.2.2.2.1 hdis]

/-- Appending an entry under a different key does not change a lookup. -/
theorem cacheGet_append_ne (c1 : List ((Nat × List String) × Value))
    (k k2 : Nat × List String) (v2 : Value) (h : k2 ≠ k) :
    cacheGet (c1 ++ [(k2, v2)]) k = cacheGet c1 k := by
  unfold cacheGet
  rw [List.find?_append]
  cases hf : List.find? (fun kv => kv.1 = k) c1 with
  | some kv => rfl
  | none =>
    simp only [Option.or]
    have : List.find? (fun kv => kv.1 = k) [(k2, v2)] = none := by
      simp [List.find?, h]
    rw [this]

/-- Appending an entry under an absent key makes the lookup find it. -/
theorem cacheGet_append_self (c1 : List ((Nat × List String) × Value))
    (k : Nat × List String) (v : Value) (h : cacheGet c1 k = none) :
    cacheGet (c1 ++ [(k, v)]) k = some v := by
  unfold cacheGet at h ⊢
  rw [List.find?_append]
  cases hf : List.find? (fun kv => kv.1 = k) c1 with
  | some kv => rw [hf] at h; cases h
  | none =>
    simp only [Option.or]
    simp [List.find?]

/-- Invocation count of a single invoke event. -/
theorem invokeCount_single_invoke (c c0 : Nat) (v : Value) :
    invokeCount c [Event.invoke c0 v] = if c0 = c then 1 else 0 := by
  by_cases h : c0 = c <;> simp [invokeCount, h]

/-- Acquire and observe events do not count as invocations. -/
theorem invokeCount_non_invoke (c c0 s : Nat) (v : Value) :
    invokeCount c [Event.acquire c0 s] = 0 ∧ invokeCount c [Event.observe c0 v] = 0 := by
  constructor <;> simp [invokeCount]

/-- Observation events of callable `c` in a singleton trace extension. -/
theorem observe_mem_append (c : Nat) (v : Value) (tr dt : List Event) :
    Event.observe c v ∈ tr ++ dt ↔ Event.observe c v ∈ tr ∨ Event.observe c v ∈ dt :=
  List.mem_append

/-- After an actual invocation of a child (cache miss), binding and caching
the value re-establishes the caching invariant, whatever non-observe events
the invocation appended. -/
theorem bind_after_invoke_cacheinv (c : Nat) (ss : List String) (c0 : DepNode)
    (st1 : SolveSt) (solved : Value) (st2 : SolveSt) (dt : List Event)
    (hc0 : c0.callId = c → c0.useCache = true ∧ c0.cacheKey = (c, ss))
    (hinv : CacheInv c ss st1)
    (hcacheeq : st2.cache = st1.cache)
    (htrace : st2.trace = st1.trace ++ dt)
    (hdtinv : invokeCount c dt = if c0.callId = c then 1 else 0)
    (hdtobs : ∀ v, Event.observe c v ∉ dt)
    (hmiss : (if c0.useCache then cacheGet st1.cache c0.cacheKey else none) = none) :
    CacheInv c ss (bindStep c0 solved st2) := by
  obtain ⟨hcount, hobs⟩ := hinv
  rw [bindStep]
  by_cases hcid : c0.callId = c
  · obtain ⟨hu, hkey⟩ := hc0 hcid
    have hmiss1 : cacheGet st1.cache (c, ss) = none := by
      rw [if_pos hu, hkey] at hmiss
      exact hmiss
    have hcount0 : invokeCount c st1.trace = 0 := by
      rw [hmiss1] at hcount
      simpa using hcount
    have hnoobs : ∀ v, Event.observe c v ∈ st1.trace → False := by
      intro v hv2
      have := hobs v hv2
      rw [hmiss1] at this
      cases this
    have hmiss3 : cacheGet st2.cache c0.cacheKey = none := by
      rw [hcacheeq, hkey]
      exact hmiss1
    have hnewget : cacheGet (st2.cache ++ [(c0.cacheKey, solved)]) (c, ss) = some solved := by
      rw [hcacheeq, hkey]
      exact cacheGet_append_self st1.cache (c, ss) solved hmiss1
    cases hn : c0.name with
    | none =>
      rw [if_neg (by rw [hmiss3]; simp)]
      refine ⟨?_, ?_⟩
      · rw [htrace, invokeCount_append, hcount0, hdtinv, if_pos hcid, hnewget]
        simp
      · intro v hv2
        rw [htrace] at hv2
        rcases List.mem_append.mp hv2 with hold | hnew
        · exact absurd hold (fun hh => hnoobs v hh)
        · exact absurd hnew (hdtobs v)
    | some nm =>
      rw [if_neg (by rw [hmiss3]; simp)]
      refine ⟨?_, ?_⟩
      · rw [htrace, List.append_assoc, invokeCount_append, hcount0,
          invokeCount_append, hdtinv, if_pos hcid,
          (invokeCount_non_invoke c c0.callId 0 solved).2, hnewget]
        simp
      · intro v hv2
        rw [htrace, List.append_assoc] at hv2
        rcases List.mem_append.mp hv2 with hold | hnew
        · exact absurd hold (fun hh => hnoobs v hh)
        · rcases List.mem_append.mp hnew with h1 | h2
          · exact absurd h1 (hdtobs v)
          · simp only [List.mem_singleton, Event.observe.injEq] at h2
            rw [hnewget, h2.2]
  · have hkeyne : c0.cacheKey ≠ (c, ss) := by
      intro hh
      exact hcid (congrArg Prod.fst hh)
    have hcountkeep : ∀ tr2, tr2 = st1.trace ++ dt →
        invokeCount c tr2 = invokeCount c st1.trace := by
      intro tr2 htr2
      rw [htr2, invokeCount_append, hdtinv, if_neg hcid]
      omega
    have hget2 : ∀ cc, cc = st2.cache ∨ cc = st2.cache ++ [(c0.cacheKey, solved)] →
        cacheGet cc (c, ss) = cacheGet st1.cache (c, ss) := by
      intro cc hcc
      rcases hcc with rfl | rfl
      · rw [hcacheeq]
      · rw [cacheGet_append_ne st2.cache (c, ss) c0.cacheKey solved hkeyne, hcacheeq]
    cases hn : c0.name with
    | none =>
      by_cases hcc3 : (cacheGet st2.cache c0.cacheKey).isSome
      · rw [if_pos hcc3]
        refine ⟨?_, ?_⟩
        · rw [hcountkeep st2.trace htrace, hget2 st2.cache (Or.inl rfl)]
          exact hcount
        · intro v hv2
          rw [htrace] at hv2
          rw [hget2 st2.cache (Or.inl rfl)]
          rcases List.mem_append.mp hv2 with hold | hnew
          · exact hobs v hold
          · exact absurd hnew (hdtobs v)
      · rw [if_neg hcc3]
        refine ⟨?_, ?_⟩
        · rw [hcountkeep st2.trace htrace, hget2 _ (Or.inr rfl)]
          exact hcount
        · intro v hv2
          rw [htrace] at hv2
          rw [hget2 _ (Or.inr rfl)]
          rcases List.mem_append.mp hv2 with hold | hnew
          · exact hobs v hold
          · exact absurd hnew (hdtobs v)
    | some nm =>
      have hobskeep : ∀ v, Event.observe c v ∈ st2.trace ++ [Event.observe c0.callId solved] →
          Event.observe c v ∈ st1.trace := by
        intro v hv2
        rcases List.mem_append.mp hv2 with h1 | h2
        · rw [htrace] at h1
          rcases List.mem_append.mp h1 with hold | hnew
          · exact hold
          · exact absurd hnew (hdtobs v)
        · simp only [List.mem_singleton, Event.observe.injEq] at h2
          exact absurd h2.1 (fun hh => hcid hh.symm)
      have hcnt2 : invokeCount c (st2.trace ++ [Event.observe c0.callId solved])
          = invokeCount c st1.trace := by
        rw [invokeCount_append, (invokeCount_non_invoke c c0.callId 0 solved).2,
          hcountkeep st2.trace htrace]
        omega
      by_cases hcc3 : (cacheGet st2.cache c0.cacheKey).isSome
      · rw [if_pos hcc3]
        refine ⟨?_, ?_⟩
        · rw [hcnt2, hget2 st2.cache (Or.inl rfl)]
          exact hcount
        · intro v hv2
          rw [hget2 st2.cache (Or.inl rfl)]
          exact hobs v (hobskeep v hv2)
      · rw [if_neg hcc3]
        refine ⟨?_, ?_⟩
        · rw [hcnt2, hget2 _ (Or.inr rfl)]
          exact hcount
        · intro v hv2
          rw [hget2 _ (Or.inr rfl)]
          exact hobs v (hobskeep v hv2)

/-- The caching invariant survives the cache-or-invoke plus bind step for
one child, provided every same-callable node carries the uniform cached
key. -/
theorem step_cacheinv (env : Env) (c : Nat) (ss : List String) (c0 : DepNode)
    (st1 : SolveSt)
    (hc0 : c0.callId = c → c0.useCache = true ∧ c0.cacheKey = (c, ss))
    (hinv : CacheInv c ss st1) :
    ∀ solved st2, invokeStep env c0 st1 = .ok (solved, st2) →
      CacheInv c ss (bindStep c0 solved st2) := by
  intro solved st2 hstep
  rw [invokeStep] at hstep
  cases hcc : (if c0.useCache then cacheGet st1.cache c0.cacheKey else none) with
  | some v0 =>
    -- cache hit: state unchanged, solved is the cached value
    obtain ⟨hcount, hobs⟩ := hinv
    rw [hcc] at hstep
    rw [Except.ok.injEq, Prod.mk.injEq] at hstep
    obtain ⟨hv, hst⟩ := hstep
    subst hst
    have hget : cacheGet st1.cache c0.cacheKey = some solved := by
      by_cases hu : c0.useCache
      · rw [if_pos hu] at hcc
        rw [hcc, hv]
      · rw [if_neg hu] at hcc
        cases hcc
    rw [bindStep]
    cases hn : c0.name with
    | none =>
      rw [if_pos (by rw [hget]; rfl)]
      exact ⟨hcount, hobs⟩
    | some nm =>
      rw [if_pos (by rw [hget]; rfl)]
      constructor
      · rw [invokeCount_append, (invokeCount_non_invoke c c0.callId 0 solved).2]
        simpa using hcount
      · intro v hv
        rcases List.mem_append.mp hv with hold | hnew
        · exact hobs v hold
        · simp only [List.mem_singleton, Event.observe.injEq] at hnew
          obtain ⟨hcid, hval⟩ := hnew
          have hk := (hc0 hcid.symm).2
          rw [hval, ← hk]
          exact hget
  | none =>
    rw [hcc] at hstep
    cases hk : c0.kind with
    | syncGen => rw [hk] at hstep; cases hstep
    | notAsync => rw [hk] at hstep; cases hstep
    | plainAsync =>
      rw [hk] at hstep
      rw [Except.ok.injEq, Prod.mk.injEq] at hstep
      obtain ⟨hv, hst⟩ := hstep
      refine bind_after_invoke_cacheinv c ss c0 st1 solved st2
        [Event.invoke c0.callId (env.impl c0.callId (invokeCount c0.callId st1.trace))]
        hc0 hinv (by rw [← hst]) (by rw [← hst]) ?_ ?_ hcc
      · rw [invokeCount_single_invoke]
      · intro v
        simp
    | asyncGen =>
      rw [hk] at hstep
      rw [Except.ok.injEq, Prod.mk.injEq] at hstep
      obtain ⟨hv, hst⟩ := hstep
      refine bind_after_invoke_cacheinv c ss c0 st1 solved st2
        [Event.invoke c0.callId (env.impl c0.callId (invokeCount c0.callId st1.trace)),
         Event.acquire c0.callId (invokeCount c0.callId st1.trace)]
        hc0 hinv (by rw [← hst]) (by rw [← hst]) ?_ ?_ hcc
      · rw [show ([Event.invoke c0.callId (env.impl c0.callId (invokeCount c0.callId st1.trace)),
          Event.acquire c0.callId (invokeCount c0.callId st1.trace)] : List Event)
          = [Event.invoke c0.callId (env.impl c0.callId (invokeCount c0.callId st1.trace))]
            ++ [Event.acquire c0.callId (invokeCount c0.callId st1.trace)] from rfl]
        rw [invokeCount_append, invokeCount_single_invoke,
          (invokeCount_non_invoke c c0.callId (invokeCount c0.callId st1.trace)
            (env.impl c0.callId (invokeCount c0.callId st1.trace))).1]
        simp
      · intro v
        simp

/-- The caching invariant is preserved by the whole sub-dependant loop,
provided every node of the forest that names callable `c` is cached under
the uniform key `(c, ss)`. -/
theorem solve_cacheinv (env : Env) (req : Req) (body : Option Value)
    (c : Nat) (ss : List String) :
    ∀ (cs : List DepNode) (st : SolveSt),
      (∀ n ∈ allNodesList cs, n.callId = c → n.useCache = true ∧ n.cacheKey = (c, ss)) →
      CacheInv c ss st →
      (∀ f st2, solveChildren env req body cs st = .error (f, st2) → CacheInv c ss st2) ∧
      (∀ vals errs st2, solveChildren env req body cs st = .ok (vals, errs, st2) →
        CacheInv c ss st2) := by
  refine solveChildren.induct env req body
    (fun d st =>
      (∀ n ∈ allNodesNode d, n.callId = c → n.useCache = true ∧ n.cacheKey = (c, ss)) →
      CacheInv c ss st →
      (∀ f st2, solveDeps env req body d st = .error (f, st2) → CacheInv c ss st2) ∧
      (∀ r st2, solveDeps env req body d st = .ok (r, st2) → CacheInv c ss st2))
    (fun cs st =>
      (∀ n ∈ allNodesList cs, n.callId = c → n.useCache = true ∧ n.cacheKey = (c, ss)) →
      CacheInv c ss st →
      (∀ f st2, solveChildren env req body cs st = .error (f, st2) → CacheInv c ss st2) ∧
      (∀ vals errs st2, solveChildren env req body cs st = .ok (vals, errs, st2) →
        CacheInv c ss st2))
    ?_ ?_ ?_ ?_ ?_ ?_ ?_ ?_ ?_
  · intro d st e hch ih
    intro hall hci
    have hch2 : ∀ n ∈ allNodesList d.children, n.callId = c →
        n.useCache = true ∧ n.cacheKey = (c, ss) :=
      fun n hn => hall n (by rw [allNodesNode_unfold]; exact List.mem_cons_of_mem _ hn)
    have ihx := ih hch2 hci
    constructor
    · intro f st2 h
      rw [solveDeps, hch] at h
      rw [Except.error.injEq] at h
      exact ihx.1 f st2 (by rw [hch, ← h])
    · intro r st2 h
      rw [solveDeps, hch] at h
      cases h
  · intro d st values errors st1 hch ih
    intro hall hci
    have hch2 : ∀ n ∈ allNodesList d.children, n.callId = c →
        n.useCache = true ∧ n.cacheKey = (c, ss) :=
      fun n hn => hall n (by rw [allNodesNode_unfold]; exact List.mem_cons_of_mem _ hn)
    have ihx := ih hch2 hci
    constructor
    · intro f st2 h
      rw [solveDeps, hch] at h
      cases h
    · intro r st2 h
      rw [solveDeps, hch] at h
      rw [Except.ok.injEq, Prod.mk.injEq] at h
      rw [← h.2]
      exact ihx.2 values errors st1 hch
  · intro st
    intro hall hci
    constructor
    · intro f st2 h
      rw [solveChildren] at h
      cases h
    · intro vals errs st2 h
      rw [solveChildren] at h
      rw [Except.ok.injEq, Prod.mk.injEq, Prod.mk.injEq] at h
      rw [← h.2.2]
      exact hci
  · intro st c0 rest e hsolve ih
    intro hall hci
    have hallnode : ∀ n ∈ allNodesNode c0, n.callId = c →
        n.useCache = true ∧ n.cacheKey = (c, ss) :=
      fun n hn => hall n (by rw [allNodesList]; exact List.mem_append.mpr (Or.inl hn))
    have ihx := ih hallnode hci
    constructor
    · intro f st2 h
      rw [solveChildren, hsolve] at h
      rw [Except.error.injEq] at h
      exact ihx.1 f st2 (by rw [hsolve, ← h])
    · intro vals errs st2 h
      rw [solveChildren, hsolve] at h
      cases h
  · intro st c0 rest solvedRes st1 hsolve hemp e hinv ih
    intro hall hci
    have hallnode : ∀ n ∈ allNodesNode c0, n.callId = c →
        n.useCache = true ∧ n.cacheKey = (c, ss) :=
      fun n hn => hall n (by rw [allNodesList]; exact List.mem_append.mpr (Or.inl hn))
    have hci1 : CacheInv c ss st1 := (ih hallnode hci).2 solvedRes st1 hsolve
    constructor
    · intro f st2 h
      rw [solveChildren, hsolve] at h
      simp only [hemp, if_true, hinv] at h
      rw [Except.error.injEq] at h
      have hst : st2 = st1 := (invokeStep_spec env c0 st1).1 f st2 (by rw [hinv, ← h])
      rw [hst]
      exact hci1
    · intro vals errs st2 h
      rw [solveChildren, hsolve] at h
      simp only [hemp, if_true, hinv] at h
      cases h
  · intro st c0 rest solvedRes st1 hsolve hemp solved st2 hinv e hrest ih1 ih2
    intro hall hci
    have hallnode : ∀ n ∈ allNodesNode c0, n.callId = c →
        n.useCache = true ∧ n.cacheKey = (c, ss) :=
      fun n hn => hall n (by rw [allNodesList]; exact List.mem_append.mpr (Or.inl hn))
    have hallrest : ∀ n ∈ allNodesList rest, n.callId = c →
        n.useCache = true ∧ n.cacheKey = (c, ss) :=
      fun n hn => hall n (by rw [allNodesList]; exact List.mem_append.mpr (Or.inr hn))
    have hc0 : c0.callId = c → c0.useCache = true ∧ c0.cacheKey = (c, ss) :=
      hallnode c0 (by rw [allNodesNode_unfold]; exact List.mem_cons_self c0 _)
    have hci1 : CacheInv c ss st1 := (ih1 hallnode hci).2 solvedRes st1 hsolve
    have hci3 : CacheInv c ss (bindStep c0 solved st2) :=
      step_cacheinv env c ss c0 st1 hc0 hci1 solved st2 hinv
    have ihr := ih2 hallrest hci3
    constructor
    · intro f st3 h
      rw [solveChildren, hsolve] at h
      simp only [hemp, if_true, hinv, hrest] at h
      rw [Except.error.injEq] at h
      exact ihr.1 f st3 (by rw [hrest, ← h])
    · intro vals errs st3 h
      rw [solveChildren, hsolve] at h
      simp only [hemp, if_true, hinv, hrest] at h
      cases h
  · intro st c0 rest solvedRes st1 hsolve hemp solved st2 hinv values errors st5
      hrest ih1 ih2
    intro hall hci
    have hallnode : ∀ n ∈ allNodesNode c0, n.callId = c →
        n.useCache = true ∧ n.cacheKey = (c, ss) :=
      fun n hn => hall n (by rw [allNodesList]; exact List.mem_append.mpr (Or.inl hn))
    have hallrest : ∀ n ∈ allNodesList rest, n.callId = c →
        n.useCache = true ∧ n.cacheKey = (c, ss) :=
      fun n hn => hall n (by rw [allNodesList]; exact List.mem_append.mpr (Or.inr hn))
    have hc0 : c0.callId = c → c0.useCache = true ∧ c0.cacheKey = (c, ss) :=
      hallnode c0 (by rw [allNodesNode_unfold]; exact List.mem_cons_self c0 _)
    have hci1 : CacheInv c ss st1 := (ih1 hallnode hci).2 solvedRes st1 hsolve
    have hci3 : CacheInv c ss (bindStep c0 solved st2) :=
      step_cacheinv env c ss c0 st1 hc0 hci1 solved st2 hinv
    have ihr := ih2 hallrest hci3
    constructor
    · intro f st3 h
      rw [solveChildren, hsolve] at h
      simp only [hemp, if_true, hinv, hrest] at h
      cases h
    · intro vals errs st3 h
      rw [solveChildren, hsolve] at h
      simp only [hemp, if_true, hinv, hrest] at h
      rw [Except.ok.injEq, Prod.mk.injEq] at h
      have hst : st3 = st5 := by
        have h22 := h.2
        rw [Prod.mk.injEq] at h22
        exact h22.2.symm
      rw [hst]
      exact ihr.2 values errors st5 hrest
  · intro st c0 rest solvedRes st1 hsolve hemp e hrest ih1 ih2
    intro hall hci
    have hallnode : ∀ n ∈ allNodesNode c0, n.callId = c →
        n.useCache = true ∧ n.cacheKey = (c, ss) :=
      fun n hn => hall n (by rw [allNodesList]; exact List.mem_append.mpr (Or.inl hn))
    have hallrest : ∀ n ∈ allNodesList rest, n.callId = c →
        n.useCache = true ∧ n.cacheKey = (c, ss) :=
      fun n hn => hall n (by rw [allNodesList]; exact List.mem_append.mpr (Or.inr hn))
    have hci1 : CacheInv c ss st1 := (ih1 hallnode hci).2 solvedRes st1 hsolve
    have ihr := ih2 hallrest hci1
    constructor
    · intro f st2 h
      rw [solveChildren, hsolve] at h
      simp only [if_neg hemp, hrest] at h
      rw [Except.error.injEq] at h
      exact ihr.1 f st2 (by rw [hrest, ← h])
    · intro vals errs st2 h
      rw [solveChildren, hsolve] at h
      simp only [if_neg hemp, hrest] at h
      cases h
  · intro st c0 rest solvedRes st1 hsolve hemp values errors st2 hrest ih1 ih2
    intro hall hci
    have hallnode : ∀ n ∈ allNodesNode c0, n.callId = c →
        n.useCache = true ∧ n.cacheKey = (c, ss) :=
      fun n hn => hall n (by rw [allNodesList]; exact List.mem_append.mpr (Or.inl hn))
    have hallrest : ∀ n ∈ allNodesList rest, n.callId = c →
        n.useCache = true ∧ n.cacheKey = (c, ss) :=
      fun n hn => hall n (by rw [allNodesList]; exact List.mem_append.mpr (Or.inr hn))
    have hci1 : CacheInv c ss st1 := (ih1 hallnode hci).2 solvedRes st1 hsolve
    have ihr := ih2 hallrest hci1
    constructor
    · intro f st3 h
      rw [solveChildren, hsolve] at h
      simp only [if_neg hemp, hrest] at h
      cases h
    · intro vals errs st3 h
      rw [solveChildren, hsolve] at h
      simp only [if_neg hemp, hrest] at h
      rw [Except.ok.injEq, Prod.mk.injEq] at h
      have hst : st3 = st2 := by
        have h22 := h.2
        rw [Prod.mk.injEq] at h22
        exact h22.2.symm
      rw [hst]
      exact ihr.2 values errors st2 hrest

/-- `bindStep` only ever appends an observation event to the trace. -/
theorem bindStep_trace (c0 : DepNode) (solved : Value) (st2 : SolveSt) :
    (bindStep c0 solved st2).trace =
      match c0.name with
      | some _ => st2.trace ++ [Event.observe c0.callId solved]
      | none => st2.trace := by
  rw [bindStep]
  cases c0.name
  · split
    · rfl
    · rfl
  · split
    · rfl
    · rfl

/-- `bindStep` does not change any invocation count. -/
theorem bindStep_count (c : Nat) (c0 : DepNode) (solved : Value) (st2 : SolveSt) :
    invokeCount c (bindStep c0 solved st2).trace = invokeCount c st2.trace := by
  rw [bindStep_trace]
  cases c0.name
  · rfl
  · rw [invokeCount_append, (invokeCount_non_invoke c c0.callId 0 solved).2]
    omega

/-- Invocation count of an invoke-then-acquire pair of events. -/
theorem invokeCount_invoke_acquire (c c0 s : Nat) (v : Value) :
    invokeCount c [Event.invoke c0 v, Event.acquire c0 s]
      = if c0 = c then 1 else 0 := by
  by_cases h : c0 = c <;> simp [invokeCount, h]

/-- With caching disabled for callable `c`, the cache-or-invoke step bumps
the invocation count of `c` exactly when the child names `c`. -/
theorem invokeStep_count (env : Env) (c : Nat) (c0 : DepNode) (st1 : SolveSt)
    (hc0 : c0.callId = c → c0.useCache = false) :
    ∀ solved st2, invokeStep env c0 st1 = .ok (solved, st2) →
      invokeCount c st2.trace
        = invokeCount c st1.trace + (if c0.callId = c then 1 else 0) := by
  intro solved st2 hstep
  rw [invokeStep] at hstep
  cases hcc : (if c0.useCache then cacheGet st1.cache c0.cacheKey else none) with
  | some v0 =>
    rw [hcc] at hstep
    rw [Except.ok.injEq, Prod.mk.injEq] at hstep
    obtain ⟨hv, hst⟩ := hstep
    subst hst
    have hne : c0.callId ≠ c := by
      intro hh
      rw [hc0 hh] at hcc
      simp at hcc
    rw [if_neg hne]
    omega
  | none =>
    rw [hcc] at hstep
    cases hk : c0.kind with
    | syncGen => rw [hk] at hstep; cases hstep
    | notAsync => rw [hk] at hstep; cases hstep
    | plainAsync =>
      rw [hk] at hstep
      rw [Except.ok.injEq, Prod.mk.injEq] at hstep
      obtain ⟨hv, hst⟩ := hstep
      subst hst
      simp only [invokeCount_append, invokeCount_single_invoke]
    | asyncGen =>
      rw [hk] at hstep
      rw [Except.ok.injEq, Prod.mk.injEq] at hstep
      obtain ⟨hv, hst⟩ := hstep
      subst hst
      simp only [invokeCount_append, invokeCount_invoke_acquire]

/-- With caching disabled for callable `c` throughout the forest, an
error-free run of the sub-dependant loop invokes `c` exactly once per
occurrence of `c` in the forest. -/
theorem solve_count (env : Env) (req : Req) (body : Option Value) (c : Nat) :
    ∀ (cs : List DepNode) (st : SolveSt),
      (∀ n ∈ allNodesList cs, n.callId = c → n.useCache = false) →
      ∀ vals errs st2, solveChildren env req body cs st = .ok (vals, errs, st2) →
        errs = [] →
        invokeCount c st2.trace = invokeCount c st.trace + countOccList c cs := by
  refine solveChildren.induct env req body
    (fun d st =>
      (∀ n ∈ allNodesNode d, n.callId = c → n.useCache = false) →
      ∀ r st2, solveDeps env req body d st = .ok (r, st2) → r.errors = [] →
        invokeCount c st2.trace = invokeCount c st.trace + countOccNode c d)
    (fun cs st =>
      (∀ n ∈ allNodesList cs, n.callId = c → n.useCache = false) →
      ∀ vals errs st2, solveChildren env req body cs st = .ok (vals, errs, st2) →
        errs = [] →
        invokeCount c st2.trace = invokeCount c st.trace + countOccList c cs)
    ?_ ?_ ?_ ?_ ?_ ?_ ?_ ?_ ?_
  · intro d st e hch ih
    intro hall r st2 h herr
    rw [solveDeps, hch] at h
    cases h
  · intro d st values errors st1 hch ih
    intro hall r st2 h herr
    rw [solveDeps, hch] at h
    rw [Except.ok.injEq, Prod.mk.injEq] at h
    obtain ⟨hr, hst⟩ := h
    have herr0 : errors = [] := by
      rw [← hr] at herr
      rw [extractOwn_errors] at herr
      have h1 := List.append_eq_nil.mp herr
      have h2 := List.append_eq_nil.mp h1.1
      have h3 := List.append_eq_nil.mp h2.1
      have h4 := List.append_eq_nil.mp h3.1
      exact h4.1
    have hch2 : ∀ n ∈ allNodesList d.children, n.callId = c → n.useCache = false :=
      fun n hn => hall n (by rw [allNodesNode_unfold]; exact List.mem_cons_of_mem _ hn)
    rw [← hst, countOccNode]
    exact ih hch2 values errors st1 hch herr0
  · intro st
    intro hall vals errs st2 h herr
    rw [solveChildren] at h
    rw [Except.ok.injEq, Prod.mk.injEq, Prod.mk.injEq] at h
    rw [← h.2.2, countOccList]
    omega
  · intro st c0 rest e hsolve ih
    intro hall vals errs st2 h herr
    rw [solveChildren, hsolve] at h
    cases h
  · intro st c0 rest solvedRes st1 hsolve hemp e hinv ih
    intro hall vals errs st2 h herr
    rw [solveChildren, hsolve] at h
    simp only [hemp, if_true, hinv] at h
    cases h
  · intro st c0 rest solvedRes st1 hsolve hemp solved st2 hinv e hrest ih1 ih2
    intro hall vals errs st3 h herr
    rw [solveChildren, hsolve] at h
    simp only [hemp, if_true, hinv, hrest] at h
    cases h
  · intro st c0 rest solvedRes st1 hsolve hemp solved st2 hinv values errors st5
      hrest ih1 ih2
    intro hall vals errs st3 h herr
    have hallnode : ∀ n ∈ allNodesNode c0, n.callId = c → n.useCache = false :=
      fun n hn => hall n (by rw [allNodesList]; exact List.mem_append.mpr (Or.inl hn))
    have hallrest : ∀ n ∈ allNodesList rest, n.callId = c → n.useCache = false :=
      fun n hn => hall n (by rw [allNodesList]; exact List.mem_append.mpr (Or.inr hn))
    have hc0 : c0.callId = c → c0.useCache = false :=
      hallnode c0 (by rw [allNodesNode_unfold]; exact List.mem_cons_self c0 _)
    rw [solveChildren, hsolve] at h
    simp only [hemp, if_true, hinv, hrest] at h
    rw [Except.ok.injEq, Prod.mk.injEq] at h
    have h22 := h.2
    rw [Prod.mk.injEq] at h22
    obtain ⟨herrs, hst3⟩ := h22
    have hsr0 : solvedRes.errors = [] := List.isEmpty_iff.mp hemp
    have hstep1 : invokeCount c st1.trace
        = invokeCount c st.trace + countOccNode c c0 :=
      ih1 hallnode solvedRes st1 hsolve hsr0
    have hstep2 : invokeCount c st2.trace
        = invokeCount c st1.trace + (if c0.callId = c then 1 else 0) :=
      invokeStep_count env c c0 st1 hc0 solved st2 hinv
    have hstep3 : invokeCount c st5.trace
        = invokeCount c (bindStep c0 solved st2).trace + countOccList c rest :=
      ih2 hallrest values errors st5 hrest (herrs.trans herr)
    rw [← hst3, hstep3, bindStep_count, hstep2, hstep1, countOccList]
    omega
  · intro st c0 rest solvedRes st1 hsolve hemp e hrest ih1 ih2
    intro hall vals errs st2 h herr
    rw [solveChildren, hsolve] at h
    simp only [if_neg hemp, hrest] at h
    cases h
  · intro st c0 rest solvedRes st1 hsolve hemp values errors st2 hrest ih1 ih2
    intro hall vals errs st3 h herr
    rw [solveChildren, hsolve] at h
    simp only [if_neg hemp, hrest] at h
    rw [Except.ok.injEq, Prod.mk.injEq] at h
    have h22 := h.2
    rw [Prod.mk.injEq] at h22
    obtain ⟨herrs, hst3⟩ := h22
    rw [← herrs] at herr
    have hsr0 : solvedRes.errors = [] := (List.append_eq_nil.mp herr).1
    exact absurd (by rw [hsr0]; rfl) hemp

/-- The caching invariant is preserved by a whole `solve_dependencies`
call, provided every node below the root that names callable `c` is cached
under the uniform key `(c, ss)`. -/
theorem solveDeps_cacheinv (env : Env) (req : Req) (body : Option Value)
    (c : Nat) (ss : List String) (d : DepNode) (st : SolveSt)
    (hall : ∀ n ∈ allNodesList d.children, n.callId = c →
      n.useCache = true ∧ n.cacheKey = (c, ss))
    (hinv : CacheInv c ss st) :
    (∀ f st2, solveDeps env req body d st = .error (f, st2) → CacheInv c ss st2) ∧
    (∀ r st2, solveDeps env req body d st = .ok (r, st2) → CacheInv c ss st2) := by
  have h := solve_cacheinv env req body c ss d.children st hall hinv
  cases hch : solveChildren env req body d.children st with
  | error e =>
    obtain ⟨f0, st0⟩ := e
    constructor
    · intro f st2 hh
      rw [solveDeps, hch] at hh
      rw [Except.error.injEq, Prod.mk.injEq] at hh
      rw [← hh.2]
      exact h.1 f0 st0 hch
    · intro r st2 hh
      rw [solveDeps, hch] at hh
      cases hh
  | ok t =>
    obtain ⟨vals, errs, st0⟩ := t
    constructor
    · intro f st2 hh
      rw [solveDeps, hch] at hh
      cases hh
    · intro r st2 hh
      rw [solveDeps, hch] at hh
      rw [Except.ok.injEq, Prod.mk.injEq] at hh
      rw [← hh.2]
      exact h.2 vals errs st0 hch

/-- With caching disabled for callable `c` below the root, an error-free
`solve_dependencies` call invokes `c` exactly once per occurrence. -/
theorem solveDeps_count (env : Env) (req : Req) (body : Option Value)
    (c : Nat) (d : DepNode) (st : SolveSt)
    (hall : ∀ n ∈ allNodesList d.children, n.callId = c → n.useCache = false) :
    ∀ r st2, solveDeps env req body d st = .ok (r, st2) → r.errors = [] →
      invokeCount c st2.trace = invokeCount c st.trace + countOccNode c d := by
  intro r st2 h herr
  rw [solveDeps] at h
  cases hch : solveChildren env req body d.children st with
  | error e =>
    rw [hch] at h
    cases h
  | ok t =>
    obtain ⟨vals, errs, st1⟩ := t
    rw [hch] at h
    rw [Except.ok.injEq, Prod.mk.injEq] at h
    obtain ⟨hr, hst⟩ := h
    have herr0 : errs = [] := by
      rw [← hr] at herr
      rw [extractOwn_errors] at herr
      have h1 := List.append_eq_nil.mp herr
      have h2 := List.append_eq_nil.mp h1.1
      have h3 := List.append_eq_nil.mp h2.1
      have h4 := List.append_eq_nil.mp h3.1
      exact h4.1
    rw [← hst, countOccNode]
    exact solve_count env req body c d.children st hall vals errs st1 hch herr0

/-- C1: over one request resolution from the empty cache, a dependency
callable all of whose occurrences in the tree carry `use_cache=True` and
the uniform identity key is invoked at most once, and every use site
observes the identical result value; when instead all of its occurrences
carry `use_cache=False` and resolution completes without errors, the
callable is invoked exactly once per occurrence. -/
theorem c1_dependency_caching (env : Env) (req : Req) (body : Option Value)
    (d : DepNode) (c : Nat) (ss : List String) :
    ((∀ n ∈ allNodesList d.children, n.callId = c →
        n.useCache = true ∧ n.cacheKey = (c, ss)) →
      ∀ r st2, solveDeps env req body d ⟨[], [], []⟩ = .ok (r, st2) →
        invokeCount c st2.trace ≤ 1 ∧
        (∀ v1 v2, Event.observe c v1 ∈ st2.trace →
          Event.observe c v2 ∈ st2.trace → v1 = v2)) ∧
    ((∀ n ∈ allNodesList d.children, n.callId = c → n.useCache = false) →
      ∀ r st2, solveDeps env req body d ⟨[], [], []⟩ = .ok (r, st2) →
        r.errors = [] →
        invokeCount c st2.trace = countOccNode c d) := by
  constructor
  · intro hall r st2 h
    have hinit : CacheInv c ss ⟨[], [], []⟩ := by
      constructor
      · simp [invokeCount, cacheGet]
      · intro v hv
        exact absurd hv (List.not_mem_nil _)
    have hci := (solveDeps_cacheinv env req body c ss d ⟨[], [], []⟩ hall hinit).2
      r st2 h
    obtain ⟨hcount, hobs⟩ := hci
    constructor
    · exact le_trans hcount (by split <;> omega)
    · intro v1 v2 h1 h2
      have e1 := hobs v1 h1
      have e2 := hobs v2 h2
      rw [e1] at e2
      exact Option.some.inj e2
  · intro hall r st2 h herr
    have hc := solveDeps_count env req body c d ⟨[], [], []⟩ hall r st2 h herr
    have h0 : invokeCount c (SolveSt.mk [] [] []).trace = 0 := rfl
    rw [hc, h0]
    omega

/-- Witness for C1: the two-sibling counter trees.  With caching enabled at
both occurrences of callable `7` the conclusion of the cached conjunct
holds; with caching disabled the error-free invocation count equals the
occurrence count. -/
theorem c1_witness :
    ((∀ n ∈ allNodesList c1CachedTree.children, n.callId = 7 →
        n.useCache = true ∧ n.cacheKey = (7, sortedScopes [])) ∧
      (∀ r st2,
        solveDeps counterEnv getReq none c1CachedTree ⟨[], [], []⟩
          = .ok (r, st2) →
        invokeCount 7 st2.trace ≤ 1 ∧
        (∀ v1 v2, Event.observe 7 v1 ∈ st2.trace →
          Event.observe 7 v2 ∈ st2.trace → v1 = v2))) ∧
    ((∀ n ∈ allNodesList c1UncachedTree.children, n.callId = 7 →
        n.useCache = false) ∧
      (∀ r st2,
        solveDeps counterEnv getReq none c1UncachedTree ⟨[], [], []⟩
          = .ok (r, st2) →
        r.errors = [] →
        invokeCount 7 st2.trace = countOccNode 7 c1UncachedTree)) := by
  have hypA : ∀ n ∈ allNodesList c1CachedTree.children, n.callId = 7 →
      n.useCache = true ∧ n.cacheKey = (7, sortedScopes []) := by
    intro n hn
    simp only [c1CachedTree, mkDep, allNodesList, allNodesNode,
      List.mem_append, List.mem_cons, List.not_mem_nil, or_false] at hn
    rcases hn with h1 | h2
    · subst h1
      exact fun _ => ⟨rfl, rfl⟩
    · subst h2
      exact fun _ => ⟨rfl, rfl⟩
  have hypB : ∀ n ∈ allNodesList c1UncachedTree.children, n.callId = 7 →
      n.useCache = false := by
    intro n hn
    simp only [c1UncachedTree, mkDep, allNodesList, allNodesNode,
      List.mem_append, List.mem_cons, List.not_mem_nil, or_false] at hn
    rcases hn with h1 | h2
    · subst h1
      exact fun _ => rfl
    · subst h2
      exact fun _ => rfl
  exact ⟨⟨hypA, (c1_dependency_caching counterEnv getReq none c1CachedTree 7
      (sortedScopes [])).1 hypA⟩,
    ⟨hypB, (c1_dependency_caching counterEnv getReq none c1UncachedTree 7
      (sortedScopes [])).2 hypB⟩⟩

end FastapiLambda
